import Mathlib

/-!
# Job feed ingestion: a shallow embedding of `js/jobs.js`

The development models the CSV ingestion code of the job board
(`JobManager.parseCSVLine`, `JobManager.parseCSV`, `JobManager.loadJobsFromCSV`), the
store's lookup and search (`JobManager.getJob`, `JobManager.filterJobs`) and
`OneDriveConfig.convertShareLink` of `js/onedrive-config.js` as pure Lean functions and
proves properties of them.

Modelling conventions.

* A JavaScript string is a list of characters (`JSString`).  All the characters the
  code inspects (comma, double quote, line feed, white space) are single code units,
  so scanning by character and scanning by code unit agree.
* The library functions `trim`, `split`, `replace(/"/g, '')` and `toLowerCase` are
  modelled by `trim`, `split`, `removeQuotes` and `toLowerCase` below.  `toLowerCase`
  serves the parser, which compares the lower-cased header names with seven ASCII
  property names; the search, which lower-cases arbitrary text, takes the lower-casing
  function as a parameter.
* `new Date().toISOString()` is an input of the parser (`now`): one reading of the
  clock per parse.
* Console output, DOM rendering and the write to local storage have no effect on the
  values computed and are left out; rendering is taken not to throw (`saveJobs`
  catches its own errors).
-/

namespace JobFeed

/-! ## Strings and values -/

/-- A JavaScript string. -/
abbrev JSString := List Char

/-- The JavaScript values that can reach the parser as its argument. -/
inductive JSValue where
  | str (s : JSString)
  | undefined
  | null
  | number (n : Int)
  | bool (b : Bool)
  | object
  deriving DecidableEq, Repr

/-- Truthiness of a value (`!v` is its negation). -/
def JSValue.truthy : JSValue → Bool
  | .str s => !s.isEmpty
  | .undefined => false
  | .null => false
  | .number n => n != 0
  | .bool b => b
  | .object => true

/-- The test `typeof v === 'string'`. -/
def JSValue.isString : JSValue → Bool
  | .str _ => true
  | _ => false

/-- White space and line terminators, the characters `String.prototype.trim` strips. -/
def isWhiteSpace (c : Char) : Bool :=
  c.toNat = 0x09 || c.toNat = 0x0A || c.toNat = 0x0B || c.toNat = 0x0C || c.toNat = 0x0D
    || c.toNat = 0x20 || c.toNat = 0xA0 || c.toNat = 0x1680
    || (0x2000 ≤ c.toNat && c.toNat ≤ 0x200A)
    || c.toNat = 0x2028 || c.toNat = 0x2029 || c.toNat = 0x202F || c.toNat = 0x205F
    || c.toNat = 0x3000 || c.toNat = 0xFEFF

/-- The method `String.prototype.trim`. -/
def trim (s : JSString) : JSString :=
  (s.dropWhile isWhiteSpace).rdropWhile isWhiteSpace

/-- The method `String.prototype.split` with a one-character separator. -/
def split (sep : Char) : JSString → List JSString
  | [] => [[]]
  | c :: cs =>
    if c = sep then [] :: split sep cs
    else
      match split sep cs with
      | [] => [[c]]
      | p :: ps => (c :: p) :: ps

/-- The call `s.replace(/"/g, '')`. -/
def removeQuotes (s : JSString) : JSString :=
  s.filter (fun c => c != '"')

/-- Lower-casing of one character: the ASCII letters, and the two characters outside
ASCII whose lower case contains an ASCII letter (KELVIN SIGN, and LATIN CAPITAL LETTER I
WITH DOT ABOVE, which becomes `i` followed by COMBINING DOT ABOVE).  The lower case of
every other character lies outside ASCII, so for the comparison with the ASCII
property names read by the parser it is immaterial; it is modelled as the character
itself. -/
def toLowerChar (c : Char) : List Char :=
  if 'A'.toNat ≤ c.toNat ∧ c.toNat ≤ 'Z'.toNat then [Char.ofNat (c.toNat + 32)]
  else if c.toNat = 0x212A then ['k']
  else if c.toNat = 0x0130 then ['i', Char.ofNat 0x0307]
  else [c]

/-- The method `String.prototype.toLowerCase`. -/
def toLowerCase (s : JSString) : JSString :=
  s.flatMap toLowerChar

/-! ## The line tokenizer -/

/-- The loop of `parseCSVLine`: `result`, `current` and `inQuotes` are the loop's
variables, the first argument is the part of the line still to be read.  When the
line is exhausted the last field is pushed. -/
def scanLine : List Char → List JSString → JSString → Bool → List JSString
  | [], result, current, _ => result ++ [trim current]
  | char :: rest, result, current, inQuotes =>
    if char = '"' then scanLine rest result current (!inQuotes)
    else if char = ',' ∧ inQuotes = false then scanLine rest (result ++ [trim current]) [] inQuotes
    else scanLine rest result (current ++ [char]) inQuotes

/-- The method `JobManager.parseCSVLine`.  Nothing in the loop can throw, so the
`catch` branch is never taken. -/
def parseCSVLine (line : JSValue) : List JSString :=
  match line with
  | .str s => if s.isEmpty then [] else scanLine s [] [] false
  | _ => []

/-! ## Jobs -/

/-- A job record, as built by `parseCSV`. -/
structure Job where
  id : Nat
  title : JSString
  location : JSString
  type : JSString
  salary : JSString
  description : JSString
  requirements : List JSString
  datePosted : JSString
  deriving DecidableEq, Repr

/-- The object `job` of `parseCSV`: the properties assigned so far, most recent first. -/
abbrev RowObject := List (JSString × JSString)

/-- The assignment `job[key] = value`. -/
def setProp (job : RowObject) (key value : JSString) : RowObject :=
  (key, value) :: job

/-- The read `job[key]`: the value assigned last, `none` for `undefined`.  The only
keys read are `title`, `location`, `type`, `salary`, `description`, `requirements` and
`dateposted`, none of which `Object.prototype` defines. -/
def getProp : RowObject → JSString → Option JSString
  | [], _ => none
  | (k, v) :: job, key => if k = key then some v else getProp job key

/-- The loop `headers.forEach((header, index) => job[header.toLowerCase()] = values[index])`. -/
def buildRowObject (headers values : List JSString) : RowObject :=
  (headers.zip values).foldl (fun job hv => setProp job (toLowerCase hv.1) hv.2) []

/-- The expression `v || d` for a string or undefined `v` and a string `d`. -/
def orDefault (v : Option JSString) (d : JSString) : JSString :=
  match v with
  | some s => if s.isEmpty then d else s
  | none => d

/-- The expression for the `requirements` property. -/
def parseRequirements (v : Option JSString) : List JSString :=
  match v with
  | some s => if s.isEmpty then [] else ((split ';' s).map trim).filter (fun r => !r.isEmpty)
  | none => []

def untitledPosition : JSString := "Untitled Position".data
def locationNotSpecified : JSString := "Location not specified".data
def fullTime : JSString := "Full-time".data
def salaryNotSpecified : JSString := "Salary not specified".data
def noDescription : JSString := "No description available".data

/-- The object literal `formattedJob`; `count` is `jobs.length`. -/
def formatJob (now : JSString) (job : RowObject) (count : Nat) : Job where
  id := count + 1
  title := orDefault (getProp job "title".data) untitledPosition
  location := orDefault (getProp job "location".data) locationNotSpecified
  type := orDefault (getProp job "type".data) fullTime
  salary := orDefault (getProp job "salary".data) salaryNotSpecified
  description := orDefault (getProp job "description".data) noDescription
  requirements := parseRequirements (getProp job "requirements".data)
  datePosted := orDefault (getProp job "dateposted".data) now

/-- The template string `jobKey`. -/
def jobKey (j : Job) : JSString :=
  j.title ++ "-".data ++ j.location ++ "-".data ++ j.type

/-- The state of the row loop of `parseCSV`: the array `jobs` and the set `seenJobs`. -/
structure ParseState where
  jobs : List Job
  seenJobs : List JSString
  deriving DecidableEq, Repr

/-- One iteration of the row loop of `parseCSV` on the line `line`. -/
def processRow (now : JSString) (headers : List JSString) (st : ParseState)
    (line : JSString) : ParseState :=
  let values := parseCSVLine (.str line)
  if values.length ≠ headers.length then st
  else
    let formattedJob := formatJob now (buildRowObject headers values) st.jobs.length
    if !formattedJob.title.isEmpty ∧ formattedJob.title ≠ untitledPosition
        ∧ jobKey formattedJob ∉ st.seenJobs then
      { jobs := st.jobs ++ [formattedJob], seenJobs := jobKey formattedJob :: st.seenJobs }
    else st

/-- The header row: `lines[0].split(',').map(h => h.trim().replace(/"/g, ''))`. -/
def parseHeaders (line : JSString) : List JSString :=
  (split ',' line).map (fun h => removeQuotes (trim h))

/-- The row loop of `parseCSV` over the data lines. -/
def processRows (now : JSString) (headers : List JSString) (st : ParseState)
    (lines : List JSString) : ParseState :=
  lines.foldl (processRow now headers) st

/-- The start of the row loop: empty `jobs`, empty `seenJobs`. -/
def ParseState.init : ParseState := { jobs := [], seenJobs := [] }

/-- The method `JobManager.parseCSV`.  No statement of the row loop can throw, so
neither `catch` branch is taken. -/
def parseCSV (now : JSString) (csvText : JSValue) : List Job :=
  match csvText with
  | .str text =>
    if text.isEmpty then []
    else
      let lines := split '\n' (trim text)
      if lines.length < 2 then []
      else (processRows now (parseHeaders (lines.headD [])) ParseState.init (lines.drop 1)).jobs
  | _ => []

/-! ## The acquisition pipeline -/

/-- What the primary source delivers: `failed` when `fetch` or `response.text()`
rejects (network error, timeout), otherwise a response with its `ok` flag and its
text. -/
inductive SheetReply where
  | failed
  | response (ok : Bool) (body : JSString)
  deriving DecidableEq, Repr

/-- What the proxy delivers: `failed` when `fetch` rejects, otherwise a response with
its `ok` flag and the value of `data.contents`; `none` when `response.json()` rejects
or `data` has no properties to read (`null`), both of which throw inside the `try`. -/
inductive ProxyReply where
  | failed
  | response (ok : Bool) (contents : Option JSValue)
  deriving DecidableEq, Repr

/-- The environment of one load: the two remote replies, `window.manualCSVData`, and
the clock (`now` for `new Date()`, `dayAgo` for `new Date(Date.now() - 86400000)`). -/
structure Sources where
  sheet : SheetReply
  proxy : ProxyReply
  manualCSVData : JSValue
  now : JSString
  dayAgo : JSString
  deriving DecidableEq, Repr

/-- The sources of the pipeline, for the record of which ones a load used. -/
inductive Source where
  | primary
  | secondary
  | manual
  | sample
  deriving DecidableEq, Repr

/-- The fields `jobs` and `isLoading` of a `JobManager`, with the record of the
sources used so far. -/
structure JobManager where
  jobs : List Job
  isLoading : Bool
  used : List Source
  deriving DecidableEq, Repr

/-- The array literal of `loadSampleJobs`. -/
def sampleJobs (now dayAgo : JSString) : List Job :=
  [ { id := 1
      title := "Senior Software Developer".data
      location := "Bangalore, India".data
      type := "Full-time".data
      salary := "₹12,00,000 - ₹18,00,000".data
      description := "We are seeking an experienced software developer to join our dynamic team. The ideal candidate will have 5+ years of experience in web development, proficiency in JavaScript, React, and Node.js. You'll work on cutting-edge projects and collaborate with cross-functional teams.".data
      requirements := ["5+ years web development experience".data, "JavaScript, React, Node.js".data,
        "Bachelor's degree in CS or related field".data]
      datePosted := now },
    { id := 2
      title := "Digital Marketing Specialist".data
      location := "Mumbai, India".data
      type := "Full-time".data
      salary := "₹6,00,000 - ₹9,00,000".data
      description := "Join our marketing team as a Digital Marketing Specialist! You'll be responsible for developing and implementing digital marketing strategies, managing social media campaigns, and analyzing performance metrics. Perfect for someone with 2-4 years of marketing experience.".data
      requirements := ["2-4 years digital marketing experience".data, "Social media management".data,
        "Analytics tools proficiency".data]
      datePosted := dayAgo } ]

/-- The method `JobManager.loadSampleJobs`. -/
def loadSampleJobs (env : Sources) (m : JobManager) : JobManager :=
  { m with jobs := sampleJobs env.now env.dayAgo, used := m.used ++ [Source.sample] }

/-- The method `JobManager.fetchFromGoogleSheets`: the manager afterwards and the
returned flag. -/
def fetchFromGoogleSheets (env : Sources) (m : JobManager) : JobManager × Bool :=
  let m := { m with used := m.used ++ [Source.primary] }
  match env.sheet with
  | .response true csvText => ({ m with jobs := parseCSV env.now (.str csvText) }, true)
  | _ => (m, false)

/-- The method `JobManager.fetchFromCorsProxy`: the manager afterwards and the returned
flag. -/
def fetchFromCorsProxy (env : Sources) (m : JobManager) : JobManager × Bool :=
  let m := { m with used := m.used ++ [Source.secondary] }
  match env.proxy with
  | .response true (some csvText) => ({ m with jobs := parseCSV env.now csvText }, true)
  | _ => (m, false)

/-- The method `JobManager.loadJobsFromCSV`, run to completion.  Both URL getters
return a non-empty string, so both remote sources are attempted in turn; the two fetch
methods catch their own errors, so the outer `catch` is not taken; `finally` clears
`isLoading` on every path past the guard. -/
def loadJobsFromCSV (env : Sources) (m : JobManager) : JobManager :=
  if m.isLoading then m
  else
    let m := { m with isLoading := true, jobs := [] }
    let r := fetchFromGoogleSheets env m
    if r.2 then { r.1 with isLoading := false }
    else
      let r := fetchFromCorsProxy env r.1
      if r.2 then { r.1 with isLoading := false }
      else if env.manualCSVData.truthy then
        { r.1 with jobs := parseCSV env.now env.manualCSVData, isLoading := false,
                   used := r.1.used ++ [Source.manual] }
      else { loadSampleJobs env r.1 with isLoading := false }

/-! ## Reference definitions -/

/-- The method `Array.prototype.join` with a one-character separator. -/
def joinWith (sep : Char) : List JSString → JSString
  | [] => []
  | [f] => f
  | f :: g :: fs => f ++ sep :: joinWith sep (g :: fs)

/-- A field wrapped in double quotes. -/
def quoteField (f : JSString) : JSString :=
  '"' :: f ++ ['"']

/-- A field as written on a line: wrapped in double quotes when the flag is set, as
it is otherwise. -/
def writeField (fq : JSString × Bool) : JSString :=
  if fq.2 then quoteField fq.1 else fq.1

/-- The positions of `line` that hold a comma preceded by an even number of double
quotes. -/
def cutPositions (line : JSString) : List Nat :=
  (List.range line.length).filter
    (fun i => line.get? i = some ',' ∧ (line.take i).count '"' % 2 = 0)

/-- The pieces into which the positions `cuts` cut `line`, the characters at the cuts
left out; the piece being cut starts at `start`. -/
def piecesFrom (line : JSString) (start : Nat) : List Nat → List JSString
  | [] => [line.drop start]
  | c :: cuts => (line.drop start).take (c - start) :: piecesFrom line (c + 1) cuts

/-- The tokenizer as the specification words it: cut the line at each comma preceded
by an even number of double quotes, delete the double quotes of each piece, trim each
piece; the empty string and a value that is no string give the empty sequence. -/
def specParseCSVLine (line : JSValue) : List JSString :=
  match line with
  | .str s =>
    if s = [] then []
    else (piecesFrom s 0 (cutPositions s)).map (fun piece => trim (removeQuotes piece))
  | _ => []

/-- The value of a row in the last column whose header, lower-cased, is `name`;
`none` when the header has no such column. -/
def columnValue (headers values : List JSString) (name : JSString) : Option JSString :=
  (((headers.zip values).filter (fun hv => toLowerCase hv.1 = name)).getLast?).map Prod.snd

/-- A job field `actual` read from the column value `cv` with default `dflt`: the
value when there is a non-empty one, the default otherwise. -/
def FieldFrom (cv : Option JSString) (dflt actual : JSString) : Prop :=
  (∀ v, cv = some v → v ≠ [] → actual = v) ∧ ((cv = none ∨ cv = some []) → actual = dflt)

/-- The fields of the job `j` as read from a row of `values` under `headers`: as many
values as headers; the title is the value of the Title column and is not empty; each
of location, type, salary and description is the value of its column when there is a
non-empty one and its default otherwise; the requirements are the empty list when the
column is absent or its value empty. -/
def RowFields (headers values : List JSString) (j : Job) : Prop :=
  values.length = headers.length ∧
  j.title ≠ [] ∧
  columnValue headers values "title".data = some j.title ∧
  FieldFrom (columnValue headers values "location".data) "Location not specified".data
    j.location ∧
  FieldFrom (columnValue headers values "type".data) "Full-time".data j.type ∧
  FieldFrom (columnValue headers values "salary".data) "Salary not specified".data j.salary ∧
  FieldFrom (columnValue headers values "description".data) "No description available".data
    j.description ∧
  ((columnValue headers values "requirements".data = none ∨
    columnValue headers values "requirements".data = some []) → j.requirements = [])

/-- The quote-aware cutting of the rest of a line, `inQuotes` being the flag on entry:
the pieces between the commas read with the flag down, quotes kept. -/
def rawPieces : Bool → List Char → List JSString
  | _, [] => [[]]
  | inQuotes, c :: cs =>
    if c = ',' ∧ inQuotes = false then [] :: rawPieces inQuotes cs
    else
      match rawPieces (if c = '"' then !inQuotes else inQuotes) cs with
      | [] => [[c]]
      | p :: ps => (c :: p) :: ps

/-- The cut positions of the rest of a line, `n` double quotes having been read before
it. -/
def cutPositionsFrom (n : Nat) (line : JSString) : List Nat :=
  (List.range line.length).filter
    (fun i => line.get? i = some ',' ∧ (n + (line.take i).count '"') % 2 = 0)

/-! ## The store: loading in steps, lookup and search -/

/-- The part of `loadJobsFromCSV` that runs before its first `await`, for a manager
that is not loading: the flag is raised and the store cleared.  This is the state in
which a load is in flight. -/
def loadStart (m : JobManager) : JobManager :=
  { m with isLoading := true, jobs := [] }

/-- The `try` and `finally` blocks of `loadJobsFromCSV`: what a load in flight goes on
to do, run to completion. -/
def loadRest (env : Sources) (m : JobManager) : JobManager :=
  let r := fetchFromGoogleSheets env m
  if r.2 then { r.1 with isLoading := false }
  else
    let r := fetchFromCorsProxy env r.1
    if r.2 then { r.1 with isLoading := false }
    else if env.manualCSVData.truthy then
      { r.1 with jobs := parseCSV env.now env.manualCSVData, isLoading := false,
                 used := r.1.used ++ [Source.manual] }
    else { loadSampleJobs env r.1 with isLoading := false }

/-- The method `JobManager.refreshJobs`. -/
def refreshJobs (env : Sources) (m : JobManager) : JobManager :=
  if m.isLoading then m else loadJobsFromCSV env m

/-- The timer callback of `JobManager.init`: five seconds after start the sample jobs
are loaded when the store is empty. -/
def watchdog (env : Sources) (m : JobManager) : JobManager :=
  if m.jobs.isEmpty then loadSampleJobs env m else m

/-- The first decimal digit of a number; `fuel` bounds the number of digits. -/
def leadingDigitFuel : Nat → Nat → Nat
  | 0, n => n
  | fuel + 1, n => if n < 10 then n else leadingDigitFuel fuel (n / 10)

/-- The first decimal digit of a natural number. -/
def leadingDigit (n : Nat) : Nat :=
  leadingDigitFuel n n

/-- The call `parseInt(k)` for a number `k` with an integer value.  `parseInt` turns
its argument into a string and reads the digits at its start.  Below 10^21 in
magnitude the string of an integer is its decimal notation, and the result is `k`.
From 10^21 on the string is in exponent notation (`1e+21`), and the digits read stop
at the point or the `e`: the result is the sign times the first digit.  The first
digit is taken from the decimal expansion of `k`; this is the digit of the string
whenever the string is not rounded up to a power of ten, as for 10^21 itself. -/
def parseInt (k : Int) : Int :=
  if k.natAbs < 10 ^ 21 then k else k.sign * (leadingDigit k.natAbs : Int)

/-- The method `JobManager.getJob` for a number with an integer value; `none` is
`undefined`. -/
def getJob (m : JobManager) (jobId : Int) : Option Job :=
  m.jobs.find? (fun job => (job.id : Int) = parseInt jobId)

/-- The method `String.prototype.includes`. -/
def includes : JSString → JSString → Bool
  | [], searchString => searchString.isEmpty
  | c :: cs, searchString => searchString.isPrefixOf (c :: cs) || includes cs searchString

/-- The list `renderJobs(jobsToRender)` renders: `jobsToRender || this.jobs`, where
an array, empty or not, is truthy and `none` stands for the default `null`. -/
def renderedJobs (m : JobManager) (jobsToRender : Option (List Job)) : List Job :=
  match jobsToRender with
  | some jobs => jobs
  | none => m.jobs

/-- The method `JobManager.filterJobs`: the manager afterwards and the list handed to
rendering.  The search lower-cases arbitrary text, titles and the term typed by the
visitor, with `String.prototype.toLowerCase`.  That function follows the case tables
of the Unicode version built into the browser, with rules that look at the
neighbouring characters (the final sigma); the tables are no part of the program, so
the function is the parameter `lowerCase`. -/
def filterJobs (lowerCase : JSString → JSString) (m : JobManager) (searchTerm : JSString) :
    JobManager × List Job :=
  if searchTerm.isEmpty then (m, renderedJobs m none)
  else
    let filteredJobs := m.jobs.filter (fun job =>
      includes (lowerCase job.title) (lowerCase searchTerm) ||
      includes (lowerCase job.location) (lowerCase searchTerm) ||
      includes (lowerCase job.description) (lowerCase searchTerm) ||
      includes (lowerCase job.type) (lowerCase searchTerm))
    (m, renderedJobs m (some filteredJobs))

/-- Lower-casing of one character below U+0100: the letters A to Z and the letters
from U+00C0 to U+00DE other than the multiplication sign U+00D7 move up by 32, every
other character below U+0100 is its own lower case. -/
def toLowerCharLatin1 (c : Char) : Char :=
  if ('A'.toNat ≤ c.toNat ∧ c.toNat ≤ 'Z'.toNat) ∨
      (0xC0 ≤ c.toNat ∧ c.toNat ≤ 0xDE ∧ c.toNat ≠ 0xD7) then Char.ofNat (c.toNat + 32)
  else c

/-- The method `String.prototype.toLowerCase` on a text all of whose characters are
below U+0100. -/
def toLowerCaseLatin1 (s : JSString) : JSString :=
  s.map toLowerCharLatin1

/-! ## The share link -/

/-- The method `OneDriveConfig.convertShareLink`; `pop` of the array of a split, which
is never empty, is its last element. -/
def convertShareLink (shareLink : JSString) : JSString :=
  if includes shareLink "1drv.ms".data then
    let shareToken := (split '/' shareLink).getLastD []
    "https://api.onedrive.com/v1.0/shares/".data ++ shareToken ++ "/root/content".data
  else shareLink

/-- The direct download link for a share token, as the comment in `convertShareLink`
gives it. -/
def directDownloadLink (token : JSString) : JSString :=
  "https://api.onedrive.com/v1.0/shares/".data ++ token ++ "/root/content".data

/-- A share link of the documented form, from its token and its file name. -/
def shareLinkOf (token filename : JSString) : JSString :=
  "https://1drv.ms/x/".data ++ token ++ "/".data ++ filename

/-! ## Letter case -/

/-- The letters of ASCII. -/
def isAsciiLetter (c : Char) : Bool :=
  ('A'.toNat ≤ c.toNat && c.toNat ≤ 'Z'.toNat) || ('a'.toNat ≤ c.toNat && c.toNat ≤ 'z'.toNat)

/-- Two characters that are the same up to the case of an ASCII letter. -/
def CaseVariant (a b : Char) : Prop :=
  a = b ∨ (isAsciiLetter a = true ∧ isAsciiLetter b = true ∧
    (a.toNat + 32 = b.toNat ∨ b.toNat + 32 = a.toNat))

instance CaseVariant.decidable : DecidableRel CaseVariant := fun a b =>
  inferInstanceAs (Decidable (a = b ∨ (isAsciiLetter a = true ∧ isAsciiLetter b = true ∧
    (a.toNat + 32 = b.toNat ∨ b.toNat + 32 = a.toNat))))

/-- A job with its date left out, for comparing jobs up to `datePosted`. -/
def Job.withoutDate (j : Job) : Job :=
  { j with datePosted := [] }

/-! ## Line endings -/

/-- The text with every line feed replaced by carriage return and line feed. -/
def toCRLF (text : JSString) : JSString :=
  text.flatMap (fun c => if c = '\n' then ['\r', '\n'] else [c])

/-- The lines of a text after the replacement: a carriage return ends every line but
the last. -/
def withCarriageReturns : List JSString → List JSString
  | [] => []
  | [l] => [l]
  | l :: m :: ls => (l ++ ['\r']) :: withCarriageReturns (m :: ls)

/-! ## Evaluation on examples -/

example : parseCSVLine (.str "\"A, B\",C".data) = ["A, B".data, "C".data] := by decide

example : specParseCSVLine (.str "\"A, B\",C".data) = ["A, B".data, "C".data] := by
  simp [specParseCSVLine, cutPositions, piecesFrom, List.range, List.range.loop, trim, removeQuotes, isWhiteSpace, List.rdropWhile]

example : (parseCSV "now".data (.str "Title,Location\n\"X\",\"Y, Z\"".data)).length = 1 := by
  decide

example : parseCSVLine (.str (joinWith ',' ([([], false)].map writeField))) = [] := by decide

example : parseInt (10 ^ 21) = 1 := by decide

example : parseCSV [] (.str (toCRLF "Title\n\nA\n \nB\n".data))
    = parseCSV [] (.str "Title\n\nA\n \nB\n".data) := by decide

example : (parseCSV [] (.str (toCRLF "Title\n\nA\n \nB\n".data))).length = 2 := by decide

example : parseCSV [] (.str (toCRLF "\n\"Title\",Type\n\"A\",\"x\n\nB,\n".data))
    = parseCSV [] (.str "\n\"Title\",Type\n\"A\",\"x\n\nB,\n".data) := by decide

example : parseInt 7 = 7 := by decide

example : convertShareLink "https://1drv.ms/x/s!ABC123/filename.csv".data
    = "https://api.onedrive.com/v1.0/shares/filename.csv/root/content".data := by decide

example : (parseCSV [] (.str "Title,Location\nA-B,C\nA,B-C".data)).length = 1 := by decide

example : (filterJobs toLowerCaseLatin1
    { jobs := parseCSV [] (.str "Title,Location\nDev,Pune\nChef,Mumbai".data),
      isLoading := false, used := [] } "MUMBAI".data).2.map Job.id = [2] := by decide

example : toLowerCaseLatin1 "CAFÉ MANAGER".data = "café manager".data := by decide

example : (filterJobs toLowerCaseLatin1
    { jobs := parseCSV [] (.str "Title,Salary\nCAFÉ MANAGER,1\nChef,café".data),
      isLoading := false, used := [] } "café".data).2.map Job.id = [1] := by decide

/-! ## White space and trimming -/

theorem isWhiteSpace_comma : isWhiteSpace ',' = false := by decide

theorem isWhiteSpace_quote : isWhiteSpace '"' = false := by decide

theorem isWhiteSpace_newline : isWhiteSpace '\n' = true := by decide

theorem dropWhile_all {p : Char → Bool} {w : List Char} (hw : ∀ c ∈ w, p c = true) :
    w.dropWhile p = [] := by
  induction w with
  | nil => rfl
  | cons c cs ih =>
    rw [List.dropWhile_cons_of_pos (hw c (List.mem_cons_self _ _))]
    exact ih (fun d hd => hw d (List.mem_cons_of_mem _ hd))

theorem rdropWhile_append_all {p : Char → Bool} (s : List Char) {w : List Char}
    (hw : ∀ c ∈ w, p c = true) : (s ++ w).rdropWhile p = s.rdropWhile p := by
  induction w using List.reverseRecOn with
  | nil => simp
  | append_singleton w c ih =>
    rw [← List.append_assoc, List.rdropWhile_concat_pos _ _ _ (hw c (by simp))]
    exact ih (fun d hd => hw d (by simp [hd]))

theorem dropWhile_all_append {p : Char → Bool} {w : List Char} (s : List Char)
    (hw : ∀ c ∈ w, p c = true) : (w ++ s).dropWhile p = s.dropWhile p := by
  induction w with
  | nil => rfl
  | cons c cs ih =>
    rw [List.cons_append, List.dropWhile_cons_of_pos (hw c (List.mem_cons_self _ _))]
    exact ih (fun d hd => hw d (List.mem_cons_of_mem _ hd))

theorem trim_ws_append {w : List Char} (s : List Char) (hw : ∀ c ∈ w, isWhiteSpace c = true) :
    trim (w ++ s) = trim s := by
  unfold trim
  rw [dropWhile_all_append s hw]

theorem trim_append_ws (s : List Char) {w : List Char} (hw : ∀ c ∈ w, isWhiteSpace c = true) :
    trim (s ++ w) = trim s := by
  unfold trim
  rw [List.dropWhile_append]
  split
  · rename_i h
    rw [List.isEmpty_iff] at h
    rw [h, dropWhile_all hw]
  · exact rdropWhile_append_all _ hw

theorem trim_dropWhile (s : List Char) : trim (s.dropWhile isWhiteSpace) = trim s := by
  unfold trim
  rw [List.dropWhile_idempotent]

theorem rdropWhile_split (p : Char → Bool) (s : List Char) :
    ∃ w, (∀ c ∈ w, p c = true) ∧ s = s.rdropWhile p ++ w := by
  induction s using List.reverseRecOn with
  | nil => exact ⟨[], by simp, by simp⟩
  | append_singleton s c ih =>
    by_cases hc : p c = true
    · obtain ⟨w, hw, hs⟩ := ih
      refine ⟨w ++ [c], ?_, ?_⟩
      · intro d hd
        rcases List.mem_append.1 hd with h | h
        · exact hw d h
        · simp at h; rw [h]; exact hc
      · rw [List.rdropWhile_concat_pos _ _ _ hc, ← List.append_assoc, ← hs]
    · exact ⟨[], by simp, by rw [List.rdropWhile_concat_neg _ _ _ hc]; simp⟩

theorem trim_rdropWhile (s : List Char) : trim (s.rdropWhile isWhiteSpace) = trim s := by
  obtain ⟨w, hw, hs⟩ := rdropWhile_split isWhiteSpace s
  conv_rhs => rw [hs]
  rw [trim_append_ws _ hw]

/-! ## Splitting and joining -/

theorem split_ne_nil (sep : Char) (s : List Char) : split sep s ≠ [] := by
  induction s with
  | nil => simp [split]
  | cons c cs ih =>
    unfold split
    split
    · simp
    · split <;> simp

theorem split_cons_sep (sep : Char) (s : List Char) : split sep (sep :: s) = [] :: split sep s := by
  simp [split]

theorem split_cons_ne {sep c : Char} (s : List Char) (h : c ≠ sep) :
    split sep (c :: s) = (c :: (split sep s).headD []) :: (split sep s).tail := by
  have hne := split_ne_nil sep s
  rw [split, if_neg h]
  cases hs : split sep s with
  | nil => exact absurd hs hne
  | cons p ps => simp

theorem split_of_not_mem {sep : Char} {s : List Char} (h : sep ∉ s) : split sep s = [s] := by
  induction s with
  | nil => rfl
  | cons c cs ih =>
    have hc : c ≠ sep := fun e => h (by simp [e])
    rw [split_cons_ne _ hc, ih (fun m => h (List.mem_cons_of_mem _ m))]
    simp

theorem split_append_sep {sep : Char} {l : List Char} (rest : List Char) (h : sep ∉ l) :
    split sep (l ++ sep :: rest) = l :: split sep rest := by
  induction l with
  | nil => simp [split]
  | cons c cs ih =>
    have hc : c ≠ sep := fun e => h (by simp [e])
    rw [List.cons_append, split_cons_ne _ hc, ih (fun m => h (List.mem_cons_of_mem _ m))]
    simp

theorem split_joinWith {sep : Char} (l : List Char) (ls : List (List Char))
    (h : ∀ x ∈ l :: ls, sep ∉ x) : split sep (joinWith sep (l :: ls)) = l :: ls := by
  induction ls generalizing l with
  | nil => simpa [joinWith] using split_of_not_mem (h l (by simp))
  | cons m ms ih =>
    rw [joinWith, split_append_sep _ (h l (by simp)),
      ih m (fun x hx => h x (List.mem_cons_of_mem _ hx))]

theorem mem_of_mem_split {sep : Char} {s p : List Char} (hp : p ∈ split sep s) {c : Char}
    (hc : c ∈ p) : c ∈ s := by
  induction s generalizing p with
  | nil => simp [split] at hp; subst hp; exact hc
  | cons d ds ih =>
    by_cases hd : d = sep
    · subst hd
      rw [split_cons_sep] at hp
      rcases List.mem_cons.1 hp with h | h
      · subst h; simp at hc
      · exact List.mem_cons_of_mem _ (ih h hc)
    · rw [split_cons_ne _ hd] at hp
      have hne := split_ne_nil sep ds
      cases hs : split sep ds with
      | nil => exact absurd hs hne
      | cons q qs =>
        rw [hs] at hp
        simp only [List.headD_cons, List.tail_cons, List.mem_cons] at hp
        rcases hp with h | h
        · subst h
          rcases List.mem_cons.1 hc with h1 | h1
          · simp [h1]
          · exact List.mem_cons_of_mem _ (ih (by rw [hs]; simp) h1)
        · exact List.mem_cons_of_mem _ (ih (by rw [hs]; simp [h]) hc)

theorem joinWith_cons (sep : Char) (l : List Char) (ls : List (List Char)) :
    joinWith sep (l :: ls) = l ++ (ls.map (fun x => sep :: x)).flatten := by
  induction ls generalizing l with
  | nil => simp [joinWith]
  | cons m ms ih => rw [joinWith, ih m]; simp

/-! ## The header row -/

theorem parseHeaders_ne_nil (line : List Char) : parseHeaders line ≠ [] := by
  unfold parseHeaders
  simpa using split_ne_nil ',' line

theorem parseHeaders_length_pos (line : List Char) : 0 < (parseHeaders line).length :=
  List.length_pos.2 (parseHeaders_ne_nil line)

theorem parseHeaders_ws_append {w : List Char} (s : List Char)
    (hw : ∀ c ∈ w, isWhiteSpace c = true) : parseHeaders (w ++ s) = parseHeaders s := by
  induction w with
  | nil => rfl
  | cons c cs ih =>
    have hc : isWhiteSpace c = true := hw c (List.mem_cons_self _ _)
    have hne : c ≠ ',' := by
      intro e; rw [e, isWhiteSpace_comma] at hc; exact Bool.false_ne_true hc
    have ih2 := ih (fun d hd => hw d (List.mem_cons_of_mem _ hd))
    have hs := split_ne_nil ',' (cs ++ s)
    unfold parseHeaders at ih2 ⊢
    rw [List.cons_append, split_cons_ne _ hne, ← ih2]
    cases hsp : split ',' (cs ++ s) with
    | nil => exact absurd hsp hs
    | cons q qs =>
      simp only [List.headD_cons, List.tail_cons, List.map_cons]
      have : trim (c :: q) = trim q := trim_ws_append (w := [c]) q (by simpa using hc)
      rw [this]

theorem parseHeaders_dropWhile (s : List Char) :
    parseHeaders (s.dropWhile isWhiteSpace) = parseHeaders s := by
  conv_rhs => rw [← List.takeWhile_append_dropWhile isWhiteSpace s]
  rw [parseHeaders_ws_append _ (fun c hc => (List.mem_takeWhile_imp hc))]

/-! ## The tokenizer loop -/

theorem scanLine_result (s : List Char) (result : List JSString) (current : JSString)
    (inQuotes : Bool) :
    scanLine s result current inQuotes = result ++ scanLine s [] current inQuotes := by
  induction s generalizing result current inQuotes with
  | nil => simp [scanLine]
  | cons c cs ih =>
    unfold scanLine
    split
    · exact ih _ _ _
    · split
      · rw [ih (result ++ [trim current]), ih ([] ++ [trim current])]; simp
      · exact ih _ _ _

theorem scanLine_ws {w : List Char} (hw : ∀ c ∈ w, isWhiteSpace c = true)
    (result : List JSString) (current : JSString) (inQuotes : Bool) :
    scanLine w result current inQuotes = result ++ [trim current] := by
  induction w generalizing current with
  | nil => rfl
  | cons c cs ih =>
    have hc : isWhiteSpace c = true := hw c (List.mem_cons_self _ _)
    have h1 : c ≠ '"' := by
      intro e; rw [e, isWhiteSpace_quote] at hc; exact Bool.false_ne_true hc
    have h2 : c ≠ ',' := by
      intro e; rw [e, isWhiteSpace_comma] at hc; exact Bool.false_ne_true hc
    rw [scanLine, if_neg h1, if_neg (fun h => h2 h.1),
      ih (fun d hd => hw d (List.mem_cons_of_mem _ hd)),
      trim_append_ws current (w := [c]) (by simpa using hc)]

theorem scanLine_append_ws (s : List Char) {w : List Char}
    (hw : ∀ c ∈ w, isWhiteSpace c = true) (result : List JSString) (current : JSString)
    (inQuotes : Bool) :
    scanLine (s ++ w) result current inQuotes = scanLine s result current inQuotes := by
  induction s generalizing result current inQuotes with
  | nil => simpa [scanLine] using scanLine_ws hw result current inQuotes
  | cons c cs ih =>
    rw [List.cons_append, scanLine, scanLine]
    split
    · exact ih _ _ _
    · split
      · exact ih _ _ _
      · exact ih _ _ _

theorem scanLine_length_pos (s : List Char) (result : List JSString) (current : JSString)
    (inQuotes : Bool) : 0 < (scanLine s result current inQuotes).length := by
  induction s generalizing result current inQuotes with
  | nil => simp [scanLine]
  | cons c cs ih =>
    unfold scanLine
    split
    · exact ih _ _ _
    · split
      · exact ih _ _ _
      · exact ih _ _ _

theorem parseCSVLine_str {s : List Char} (h : s ≠ []) :
    parseCSVLine (.str s) = scanLine s [] [] false := by
  cases s with
  | nil => exact absurd rfl h
  | cons c cs => rfl

theorem parseCSVLine_rdropWhile {r : List Char} (h : r.rdropWhile isWhiteSpace ≠ []) :
    parseCSVLine (.str (r.rdropWhile isWhiteSpace)) = parseCSVLine (.str r) := by
  obtain ⟨w, hw, hr⟩ := rdropWhile_split isWhiteSpace r
  have hne : r ≠ [] := by
    intro e; rw [e] at h; exact h (by simp)
  rw [parseCSVLine_str h, parseCSVLine_str hne]
  conv_rhs => rw [hr]
  rw [scanLine_append_ws _ hw]

theorem parseCSVLine_ws {r : List Char} (hr : ∀ c ∈ r, isWhiteSpace c = true) :
    parseCSVLine (.str r) = [] ∨ parseCSVLine (.str r) = [[]] := by
  cases r with
  | nil => left; rfl
  | cons c cs =>
    right
    rw [parseCSVLine_str (by simp), scanLine_ws hr]
    simp [trim]

/-! ## The row loop -/

theorem getProp_buildRowObject_single (h v key : JSString) :
    getProp (buildRowObject [h] [v]) key = none ∨ getProp (buildRowObject [h] [v]) key = some v := by
  simp only [buildRowObject, List.zip_cons_cons, List.zip_nil_right, List.foldl_cons,
    List.foldl_nil, setProp, getProp]
  split <;> simp

theorem processRow_ws (now : JSString) {headers : List JSString} (hh : headers ≠ [])
    (st : ParseState) {r : List Char} (hr : ∀ c ∈ r, isWhiteSpace c = true) :
    processRow now headers st r = st := by
  unfold processRow
  rcases parseCSVLine_ws hr with h | h
  · rw [h]
    have : ([] : List JSString).length ≠ headers.length := by
      simpa using (List.length_pos.2 hh).ne
    simp only [this, ne_eq, not_false_eq_true, if_true]
  · rw [h]
    by_cases hl : ([[]] : List JSString).length ≠ headers.length
    · simp only [hl, ne_eq, not_false_eq_true, if_true]
    · simp only [hl, if_false]
      have h1 : headers.length = 1 := by simpa using (not_not.1 hl).symm
      obtain ⟨h0, rfl⟩ := List.length_eq_one.1 h1
      have ht : (formatJob now (buildRowObject [h0] [[]]) st.jobs.length).title
          = untitledPosition := by
        simp only [formatJob]
        rcases getProp_buildRowObject_single h0 [] "title".data with e | e <;>
          rw [e] <;> simp [orDefault]
      rw [if_neg]
      rw [ht]
      simp

theorem processRows_append (now : JSString) (headers : List JSString) (st : ParseState)
    (xs ys : List JSString) :
    processRows now headers st (xs ++ ys)
      = processRows now headers (processRows now headers st xs) ys := by
  simp [processRows, List.foldl_append]

theorem processRows_cons (now : JSString) (headers : List JSString) (st : ParseState)
    (x : JSString) (xs : List JSString) :
    processRows now headers st (x :: xs)
      = processRows now headers (processRow now headers st x) xs := rfl

theorem processRows_nil (now : JSString) (headers : List JSString) (st : ParseState) :
    processRows now headers st [] = st := rfl

theorem processRow_rdropWhile (now : JSString) (headers : List JSString)
    (st : ParseState) {r : List Char} (h : r.rdropWhile isWhiteSpace ≠ []) :
    processRow now headers st (r.rdropWhile isWhiteSpace) = processRow now headers st r := by
  unfold processRow
  rw [parseCSVLine_rdropWhile h]

/-! ## From the text to its lines -/

theorem joinWith_concat (sep : Char) (l : List Char) (ls : List (List Char)) (r : List Char) :
    joinWith sep (l :: (ls ++ [r])) = joinWith sep (l :: ls) ++ sep :: r := by
  rw [joinWith_cons, joinWith_cons]
  simp

theorem rdropWhile_append_of_ne_nil {p : Char → Bool} (a : List Char) {b : List Char}
    (hb : b.rdropWhile p ≠ []) : (a ++ b).rdropWhile p = a ++ b.rdropWhile p := by
  obtain ⟨w, hw, hs⟩ := rdropWhile_split p b
  conv_lhs => rw [hs, ← List.append_assoc, rdropWhile_append_all _ hw]
  rw [List.rdropWhile_eq_self_iff]
  intro hne
  have hlast : (a ++ b.rdropWhile p).getLast hne = (b.rdropWhile p).getLast hb :=
    List.getLast_append_of_ne_nil hb
  rw [hlast]
  exact List.rdropWhile_last_not _ _ hb

/-- The body of `parseCSV` once the text is trimmed. -/
theorem parseCSV_str {text : List Char} (h : text ≠ []) (now : JSString) :
    parseCSV now (.str text)
      = if (split '\n' (trim text)).length < 2 then []
        else (processRows now (parseHeaders ((split '\n' (trim text)).headD []))
          ParseState.init ((split '\n' (trim text)).drop 1)).jobs := by
  cases text with
  | nil => exact absurd rfl h
  | cons c cs => rfl

theorem rows_of_trimmed (now : JSString) {header : List Char} (hne : '\n' ∉ header)
    (rows : List (List Char)) (hrows : ∀ r ∈ rows, '\n' ∉ r) :
    (if (split '\n' ((joinWith '\n' (header :: rows)).rdropWhile isWhiteSpace)).length < 2 then []
      else (processRows now
        (parseHeaders ((split '\n'
          ((joinWith '\n' (header :: rows)).rdropWhile isWhiteSpace)).headD []))
        ParseState.init
        ((split '\n' ((joinWith '\n' (header :: rows)).rdropWhile isWhiteSpace)).drop 1)).jobs)
      = (processRows now (parseHeaders header) ParseState.init rows).jobs := by
  induction rows using List.reverseRecOn with
  | nil =>
    have h1 : '\n' ∉ header.rdropWhile isWhiteSpace :=
      fun m => hne ((List.rdropWhile_prefix isWhiteSpace _).subset m)
    simp [joinWith, split_of_not_mem h1, processRows, ParseState.init]
  | append_singleton rows r ih =>
    have ih2 := ih (fun x hx => hrows x (by simp [hx]))
    by_cases hr : ∀ c ∈ r, isWhiteSpace c = true
    · have hw : ∀ c ∈ '\n' :: r, isWhiteSpace c = true := by
        intro c hc
        rcases List.mem_cons.1 hc with h | h
        · rw [h]; exact isWhiteSpace_newline
        · exact hr c h
      rw [joinWith_concat, rdropWhile_append_all _ hw, ih2, processRows_append,
        processRows_cons, processRows_nil, processRow_ws now (parseHeaders_ne_nil _) _ hr]
    · have hr2 : r.rdropWhile isWhiteSpace ≠ [] := by
        intro e
        rw [List.rdropWhile_eq_nil_iff] at e
        exact hr e
      have hr3 : ('\n' :: r).rdropWhile isWhiteSpace = '\n' :: r.rdropWhile isWhiteSpace :=
        rdropWhile_append_of_ne_nil ['\n'] hr2
      have hr4 : ('\n' :: r).rdropWhile isWhiteSpace ≠ [] := by rw [hr3]; simp
      have hnl : ∀ x ∈ header :: (rows ++ [r.rdropWhile isWhiteSpace]), '\n' ∉ x := by
        intro x hx
        rcases List.mem_cons.1 hx with h | h
        · rw [h]; exact hne
        · rcases List.mem_append.1 h with h | h
          · exact hrows x (by simp [h])
          · simp only [List.mem_singleton] at h
            rw [h]
            exact fun m => hrows r (by simp) ((List.rdropWhile_prefix isWhiteSpace _).subset m)
      rw [joinWith_concat, rdropWhile_append_of_ne_nil _ hr4, hr3, ← joinWith_concat,
        split_joinWith _ _ hnl]
      have hlen : ¬ (header :: (rows ++ [r.rdropWhile isWhiteSpace])).length < 2 := by
        simp
      rw [if_neg hlen]
      simp only [List.headD_cons, List.drop_succ_cons, List.drop_zero]
      rw [processRows_append, processRows_append, processRows_cons, processRows_cons,
        processRows_nil, processRows_nil, processRow_rdropWhile _ _ _ hr2]

/-- The list `parseCSV` returns for a text laid out in lines: white space, then a header
line with a character that is no white space, then the data lines.  It is the row
loop run over the data lines as they stand. -/
theorem parseCSV_lines (now : JSString) (lead header : List Char) (rows : List (List Char))
    (hlead : ∀ c ∈ lead, isWhiteSpace c = true)
    (hhead : ∃ c ∈ header, isWhiteSpace c = false)
    (hnl : ∀ l ∈ header :: rows, '\n' ∉ l) :
    parseCSV now (.str (lead ++ joinWith '\n' (header :: rows)))
      = (processRows now (parseHeaders header) ParseState.init rows).jobs := by
  obtain ⟨c, hc, hcw⟩ := hhead
  have hd : header.dropWhile isWhiteSpace ≠ [] := by
    intro e
    have := (List.dropWhile_eq_nil_iff.1 e) c hc
    rw [hcw] at this
    exact Bool.false_ne_true this
  have htext : lead ++ joinWith '\n' (header :: rows) ≠ [] := by
    rw [joinWith_cons]
    intro e
    have h1 := (List.append_eq_nil.1 e).2
    have h2 := (List.append_eq_nil.1 h1).1
    rw [h2] at hc
    simp at hc
  have hdrop : (lead ++ joinWith '\n' (header :: rows)).dropWhile isWhiteSpace
      = joinWith '\n' (header.dropWhile isWhiteSpace :: rows) := by
    rw [dropWhile_all_append _ hlead, joinWith_cons, joinWith_cons, List.dropWhile_append]
    have : (header.dropWhile isWhiteSpace).isEmpty = false := by
      cases h : header.dropWhile isWhiteSpace with
      | nil => exact absurd h hd
      | cons _ _ => rfl
    rw [this]
    simp
  have hne : '\n' ∉ header.dropWhile isWhiteSpace :=
    fun m => hnl header (by simp) ((List.dropWhile_suffix isWhiteSpace).subset m)
  rw [parseCSV_str htext, trim, hdrop,
    rows_of_trimmed now hne rows (fun r hr => hnl r (List.mem_cons_of_mem _ hr)),
    parseHeaders_dropWhile]

/-! ## Invariants of the row loop -/

theorem jobKey_formatJob (now : JSString) (job : RowObject) (n m : Nat) :
    jobKey (formatJob now job n) = jobKey (formatJob now job m) := rfl

theorem jobKey_congr {a b : Job} (h1 : a.title = b.title) (h2 : a.location = b.location)
    (h3 : a.type = b.type) : jobKey a = jobKey b := by
  simp [jobKey, h1, h2, h3]

/-- One iteration either leaves the state as it is, or appends the formatted job of a
row with the right number of values, a supplied title and a key not seen before. -/
theorem processRow_cases (now : JSString) (headers : List JSString) (st : ParseState)
    (line : JSString) :
    processRow now headers st line = st ∨
      ((parseCSVLine (.str line)).length = headers.length ∧
        (formatJob now (buildRowObject headers (parseCSVLine (.str line))) st.jobs.length).title ≠ [] ∧
        (formatJob now (buildRowObject headers (parseCSVLine (.str line))) st.jobs.length).title
          ≠ untitledPosition ∧
        jobKey (formatJob now (buildRowObject headers (parseCSVLine (.str line))) st.jobs.length)
          ∉ st.seenJobs ∧
        processRow now headers st line =
          { jobs := st.jobs ++
              [formatJob now (buildRowObject headers (parseCSVLine (.str line))) st.jobs.length],
            seenJobs :=
              jobKey (formatJob now (buildRowObject headers (parseCSVLine (.str line)))
                st.jobs.length) :: st.seenJobs }) := by
  unfold processRow
  by_cases hl : (parseCSVLine (.str line)).length ≠ headers.length
  · left; simp only [hl, ne_eq, not_false_eq_true, if_true]
  · simp only [hl, if_false]
    split
    · rename_i h
      right
      refine ⟨not_not.1 hl, ?_, h.2.1, h.2.2, rfl⟩
      intro e
      rw [e] at h
      simp at h
    · left; rfl

/-- A row accepted by one iteration: the conditions under which the job is appended. -/
theorem processRow_accept (now : JSString) (headers : List JSString) (st : ParseState)
    (line : JSString)
    (hlen : (parseCSVLine (.str line)).length = headers.length)
    (ht : (formatJob now (buildRowObject headers (parseCSVLine (.str line))) 0).title
      ≠ untitledPosition)
    (hk : jobKey (formatJob now (buildRowObject headers (parseCSVLine (.str line))) 0)
      ∉ st.seenJobs) :
    processRow now headers st line =
      { jobs := st.jobs ++
          [formatJob now (buildRowObject headers (parseCSVLine (.str line))) st.jobs.length],
        seenJobs :=
          jobKey (formatJob now (buildRowObject headers (parseCSVLine (.str line))) 0)
            :: st.seenJobs } := by
  have hne : (formatJob now (buildRowObject headers (parseCSVLine (.str line))) 0).title ≠ [] := by
    simp only [formatJob]
    cases h : getProp (buildRowObject headers (parseCSVLine (.str line))) "title".data with
    | none => simp [orDefault, untitledPosition]
    | some v =>
      cases v with
      | nil => simp [orDefault, untitledPosition]
      | cons c cs => simp [orDefault]
  unfold processRow
  rw [if_neg (not_not.2 hlen)]
  have hcond : (!(formatJob now (buildRowObject headers (parseCSVLine (.str line)))
        st.jobs.length).title.isEmpty) = true ∧
      (formatJob now (buildRowObject headers (parseCSVLine (.str line))) st.jobs.length).title
        ≠ untitledPosition ∧
      jobKey (formatJob now (buildRowObject headers (parseCSVLine (.str line))) st.jobs.length)
        ∉ st.seenJobs := by
    refine ⟨?_, ht, hk⟩
    have : (formatJob now (buildRowObject headers (parseCSVLine (.str line)))
        st.jobs.length).title
        = (formatJob now (buildRowObject headers (parseCSVLine (.str line))) 0).title := rfl
    rw [this]
    cases h : (formatJob now (buildRowObject headers (parseCSVLine (.str line))) 0).title with
    | nil => exact absurd h hne
    | cons _ _ => rfl
  simp only []
  rw [if_pos hcond]
  rfl

/-- A row rejected by one iteration: a wrong number of values, a title not supplied, or
a key seen before. -/
theorem processRow_reject (now : JSString) (headers : List JSString) (st : ParseState)
    (line : JSString)
    (h : (parseCSVLine (.str line)).length ≠ headers.length ∨
      (formatJob now (buildRowObject headers (parseCSVLine (.str line))) 0).title
        = untitledPosition ∨
      jobKey (formatJob now (buildRowObject headers (parseCSVLine (.str line))) 0)
        ∈ st.seenJobs) :
    processRow now headers st line = st := by
  rcases processRow_cases now headers st line with h1 | ⟨h1, _, h3, h4, _⟩
  · exact h1
  · rcases h with h | h | h
    · exact absurd h1 h
    · exact absurd h h3
    · exact absurd h h4

theorem seenJobs_processRow (now : JSString) (headers : List JSString) (st : ParseState)
    (line : JSString) (h : st.seenJobs = (st.jobs.map jobKey).reverse) :
    (processRow now headers st line).seenJobs
      = ((processRow now headers st line).jobs.map jobKey).reverse := by
  rcases processRow_cases now headers st line with h1 | ⟨_, _, _, _, h1⟩
  · rw [h1]; exact h
  · rw [h1]; simp [h]

theorem seenJobs_processRows (now : JSString) (headers : List JSString) (st : ParseState)
    (lines : List JSString) (h : st.seenJobs = (st.jobs.map jobKey).reverse) :
    (processRows now headers st lines).seenJobs
      = ((processRows now headers st lines).jobs.map jobKey).reverse := by
  induction lines generalizing st with
  | nil => exact h
  | cons l ls ih =>
    rw [processRows_cons]
    exact ih _ (seenJobs_processRow now headers st l h)

theorem ids_processRows (now : JSString) (headers : List JSString) (st : ParseState)
    (lines : List JSString) (h : st.jobs.map Job.id = List.range' 1 st.jobs.length) :
    (processRows now headers st lines).jobs.map Job.id
      = List.range' 1 (processRows now headers st lines).jobs.length := by
  induction lines generalizing st with
  | nil => exact h
  | cons l ls ih =>
    rw [processRows_cons]
    apply ih
    rcases processRow_cases now headers st l with h1 | ⟨_, _, _, _, h1⟩
    · rw [h1]; exact h
    · rw [h1]
      simp only [List.map_append, List.map_cons, List.map_nil, List.length_append,
        List.length_singleton, h]
      rw [List.range'_1_concat]
      simp [formatJob, Nat.add_comm]

theorem titles_processRows (now : JSString) (headers : List JSString) (st : ParseState)
    (lines : List JSString)
    (h : ∀ j ∈ st.jobs, j.title ≠ [] ∧ j.title ≠ untitledPosition) :
    ∀ j ∈ (processRows now headers st lines).jobs, j.title ≠ [] ∧ j.title ≠ untitledPosition := by
  induction lines generalizing st with
  | nil => exact h
  | cons l ls ih =>
    rw [processRows_cons]
    apply ih
    rcases processRow_cases now headers st l with h1 | ⟨_, h2, h3, _, h1⟩
    · rw [h1]; exact h
    · rw [h1]
      intro j hj
      rcases List.mem_append.1 hj with hj | hj
      · exact h j hj
      · simp only [List.mem_singleton] at hj
        rw [hj]
        exact ⟨h2, h3⟩

theorem nodup_processRows (now : JSString) (headers : List JSString) (st : ParseState)
    (lines : List JSString) (hs : st.seenJobs = (st.jobs.map jobKey).reverse)
    (h : (st.jobs.map (fun j => (j.title, j.location, j.type))).Nodup) :
    ((processRows now headers st lines).jobs.map
      (fun j => (j.title, j.location, j.type))).Nodup := by
  induction lines generalizing st with
  | nil => exact h
  | cons l ls ih =>
    rw [processRows_cons]
    apply ih _ (seenJobs_processRow now headers st l hs)
    rcases processRow_cases now headers st l with h1 | ⟨_, _, _, h4, h1⟩
    · rw [h1]; exact h
    · rw [h1]
      simp only [List.map_append, List.map_cons, List.map_nil]
      rw [List.nodup_append]
      refine ⟨h, List.nodup_singleton _, ?_⟩
      intro t ht1 ht2
      simp only [List.mem_singleton] at ht2
      obtain ⟨j, hj, hjt⟩ := List.mem_map.1 ht1
      apply h4
      rw [hs, List.mem_reverse]
      refine List.mem_map.2 ⟨j, hj, ?_⟩
      rw [ht2] at hjt
      simp only [Prod.mk.injEq] at hjt
      exact jobKey_congr hjt.1 hjt.2.1 hjt.2.2

/-- Every job of the row loop is in the starting state or is the formatted job of
one of the lines, a line with as many values as there are headers. -/
theorem origin_processRows (now : JSString) (headers : List JSString) (st : ParseState)
    (lines : List JSString) :
    ∀ j ∈ (processRows now headers st lines).jobs, j ∈ st.jobs ∨
      ∃ line ∈ lines, (parseCSVLine (.str line)).length = headers.length ∧
        j = formatJob now (buildRowObject headers (parseCSVLine (.str line))) (j.id - 1) := by
  induction lines generalizing st with
  | nil => intro j hj; exact Or.inl hj
  | cons l ls ih =>
    intro j hj
    rw [processRows_cons] at hj
    rcases ih _ j hj with h | ⟨line, hl, h⟩
    · rcases processRow_cases now headers st l with h1 | ⟨h2, _, _, _, h1⟩
      · rw [h1] at h; exact Or.inl h
      · rw [h1] at h
        rcases List.mem_append.1 h with h | h
        · exact Or.inl h
        · simp only [List.mem_singleton] at h
          right
          refine ⟨l, List.mem_cons_self _ _, h2, ?_⟩
          rw [h]
          rfl
    · exact Or.inr ⟨line, List.mem_cons_of_mem _ hl, h⟩

/-! ## The parser on arbitrary input -/

theorem parseCSV_eq (now : JSString) (csvText : JSValue) :
    parseCSV now csvText = [] ∨
      ∃ text, csvText = .str text ∧
        parseCSV now csvText
          = (processRows now (parseHeaders ((split '\n' (trim text)).headD []))
              ParseState.init ((split '\n' (trim text)).drop 1)).jobs := by
  cases csvText with
  | str text =>
    by_cases h : text = []
    · left; rw [h]; rfl
    · rw [parseCSV_str h]
      split
      · left; rfl
      · right; exact ⟨text, rfl, rfl⟩
  | undefined => left; rfl
  | null => left; rfl
  | number n => left; rfl
  | bool b => left; rfl
  | object => left; rfl

/-- Deleting a data line on which the row loop does nothing leaves the parsed list
as it is. -/
theorem parseCSV_skip (now : JSString) (lead header : List Char) (pre : List (List Char))
    (r : List Char) (post : List (List Char))
    (hlead : ∀ c ∈ lead, isWhiteSpace c = true)
    (hhead : ∃ c ∈ header, isWhiteSpace c = false)
    (hnl : ∀ l ∈ header :: (pre ++ r :: post), '\n' ∉ l)
    (hskip : processRow now (parseHeaders header)
        (processRows now (parseHeaders header) ParseState.init pre) r
      = processRows now (parseHeaders header) ParseState.init pre) :
    parseCSV now (.str (lead ++ joinWith '\n' (header :: (pre ++ r :: post))))
      = parseCSV now (.str (lead ++ joinWith '\n' (header :: (pre ++ post)))) := by
  have hnl2 : ∀ l ∈ header :: (pre ++ post), '\n' ∉ l := by
    intro l hl
    apply hnl l
    rcases List.mem_cons.1 hl with h | h
    · simp [h]
    · rcases List.mem_append.1 h with h | h
      · simp [h]
      · simp [h]
  rw [parseCSV_lines now lead header _ hlead hhead hnl,
    parseCSV_lines now lead header _ hlead hhead hnl2,
    processRows_append, processRows_cons, hskip, ← processRows_append]

/-! ## Reading a column -/

theorem buildRowObject_eq (headers values : List JSString) :
    buildRowObject headers values
      = ((headers.zip values).map (fun hv => (toLowerCase hv.1, hv.2))).reverse := by
  unfold buildRowObject
  induction (headers.zip values) using List.reverseRecOn with
  | nil => rfl
  | append_singleton zs z ih =>
    rw [List.foldl_append, ih]
    simp [setProp]

theorem getProp_buildRowObject (headers values : List JSString) (name : JSString) :
    getProp (buildRowObject headers values) name = columnValue headers values name := by
  rw [buildRowObject_eq]
  unfold columnValue
  induction (headers.zip values) using List.reverseRecOn with
  | nil => rfl
  | append_singleton zs z ih =>
    simp only [List.map_append, List.map_cons, List.map_nil, List.reverse_append,
      List.reverse_cons, List.reverse_nil, List.nil_append, List.singleton_append, getProp,
      List.filter_append]
    by_cases hz : toLowerCase z.1 = name
    · simp [hz, List.filter_cons]
    · rw [if_neg hz, ih]
      simp [hz, List.filter_cons]

theorem columnValue_none {headers : List JSString} {name : JSString}
    (h : ∀ x ∈ headers, toLowerCase x ≠ name) (values : List JSString) :
    columnValue headers values name = none := by
  unfold columnValue
  have : (headers.zip values).filter (fun hv => toLowerCase hv.1 = name) = [] := by
    rw [List.filter_eq_nil_iff]
    intro hv hmem
    have := h hv.1 (List.of_mem_zip hmem).1
    simpa using this
  rw [this]
  rfl

/-! ## Rows that are all accepted -/

theorem toLowerCase_nil : toLowerCase [] = [] := rfl

theorem header_nonblank_of_column {header : List Char} {name : JSString} (hname : name ≠ [])
    (h : ∃ x ∈ parseHeaders header, toLowerCase x = name) :
    ∃ c ∈ header, isWhiteSpace c = false := by
  obtain ⟨x, hx, hlow⟩ := h
  unfold parseHeaders at hx
  obtain ⟨p, hp, rfl⟩ := List.mem_map.1 hx
  have htrim : trim p ≠ [] := by
    intro e
    rw [e] at hlow
    exact hname hlow.symm
  have hlast := List.rdropWhile_last_not isWhiteSpace (p.dropWhile isWhiteSpace) htrim
  refine ⟨_, ?_, by simpa using hlast⟩
  apply mem_of_mem_split hp
  apply (List.dropWhile_suffix isWhiteSpace).subset
  apply (List.rdropWhile_prefix isWhiteSpace _).subset
  exact List.getLast_mem htrim

theorem processRows_wellformed (now : JSString) (headers : List JSString) (st : ParseState)
    (rows : List JSString)
    (hlen : ∀ r ∈ rows, (parseCSVLine (.str r)).length = headers.length)
    (ht : ∀ r ∈ rows,
      (formatJob now (buildRowObject headers (parseCSVLine (.str r))) 0).title ≠ untitledPosition)
    (hkeys : (rows.map (fun r =>
      jobKey (formatJob now (buildRowObject headers (parseCSVLine (.str r))) 0))).Nodup)
    (hseen : ∀ r ∈ rows,
      jobKey (formatJob now (buildRowObject headers (parseCSVLine (.str r))) 0) ∉ st.seenJobs) :
    (processRows now headers st rows).jobs
      = st.jobs ++ (rows.enumFrom st.jobs.length).map
          (fun ir => formatJob now (buildRowObject headers (parseCSVLine (.str ir.2))) ir.1) := by
  induction rows generalizing st with
  | nil => simp [processRows]
  | cons r rs ih =>
    rw [processRows_cons,
      processRow_accept now headers st r (hlen r (by simp)) (ht r (by simp)) (hseen r (by simp))]
    rw [List.map_cons, List.nodup_cons] at hkeys
    rw [ih _ (fun x hx => hlen x (List.mem_cons_of_mem _ hx))
      (fun x hx => ht x (List.mem_cons_of_mem _ hx)) hkeys.2]
    · simp [List.enumFrom_cons]
    · intro x hx hmem
      rcases List.mem_cons.1 hmem with h | h
      · exact hkeys.1 (List.mem_map.2 ⟨x, hx, h⟩)
      · exact hseen x (List.mem_cons_of_mem _ hx) h

theorem ids_parseCSV (now : JSString) (csvText : JSValue) :
    (parseCSV now csvText).map Job.id = List.range' 1 (parseCSV now csvText).length := by
  rcases parseCSV_eq now csvText with h | ⟨text, _, h⟩
  · rw [h]; rfl
  · rw [h]
    exact ids_processRows now _ ParseState.init _ rfl

/-! ## The claims about `parseCSV` -/

/-- Claim C1.  For a text made of a header line with a Title column (in any letter
case) followed by data rows, each of which tokenizes to as many fields as the header
has, has a title other than the placeholder and a de-duplication key different from
the keys of the other rows, `parseCSV` returns one job per row, the i-th job
being the formatted job of the i-th row, with ids 1, 2, ..., N in row order.  (The
conditions that the header holds no quote and that there is at least one row are
not needed.) -/
theorem C1_one_job_per_row (now : JSString) (header : List Char) (rows : List (List Char))
    (htitle : ∃ h ∈ parseHeaders header, toLowerCase h = "title".data)
    (hnl : ∀ l ∈ header :: rows, '\n' ∉ l)
    (hlen : ∀ r ∈ rows, (parseCSVLine (.str r)).length = (parseHeaders header).length)
    (ht : ∀ r ∈ rows,
      (formatJob now (buildRowObject (parseHeaders header) (parseCSVLine (.str r))) 0).title ≠ [] ∧
      (formatJob now (buildRowObject (parseHeaders header) (parseCSVLine (.str r))) 0).title
        ≠ untitledPosition)
    (hkeys : (rows.map (fun r =>
      jobKey (formatJob now (buildRowObject (parseHeaders header)
        (parseCSVLine (.str r))) 0))).Nodup) :
    parseCSV now (.str (joinWith '\n' (header :: rows)))
        = rows.enum.map (fun ir =>
            formatJob now (buildRowObject (parseHeaders header) (parseCSVLine (.str ir.2))) ir.1)
      ∧ (parseCSV now (.str (joinWith '\n' (header :: rows)))).length = rows.length
      ∧ (parseCSV now (.str (joinWith '\n' (header :: rows)))).map Job.id
          = List.range' 1 rows.length := by
  have hhead := header_nonblank_of_column (by decide) htitle
  have hmain : parseCSV now (.str (joinWith '\n' (header :: rows)))
      = rows.enum.map (fun ir =>
          formatJob now (buildRowObject (parseHeaders header) (parseCSVLine (.str ir.2))) ir.1) := by
    have h := parseCSV_lines now [] header rows (by simp) hhead hnl
    rw [List.nil_append] at h
    rw [h, processRows_wellformed now _ ParseState.init rows hlen (fun r hr => (ht r hr).2) hkeys
      (by simp [ParseState.init])]
    simp [ParseState.init, List.enum]
  have hl : (parseCSV now (.str (joinWith '\n' (header :: rows)))).length = rows.length := by
    rw [hmain]; simp
  refine ⟨hmain, hl, ?_⟩
  rw [ids_parseCSV, hl]

/-- Claim C2.  For every input, the triples (title, location, type) of the jobs
returned by `parseCSV` are pairwise different: no two jobs at different positions
agree on all three. -/
theorem C2_no_duplicate_triple (now : JSString) (csvText : JSValue) :
    ((parseCSV now csvText).map (fun j => (j.title, j.location, j.type))).Nodup := by
  rcases parseCSV_eq now csvText with h | ⟨text, _, h⟩
  · rw [h]; exact List.nodup_nil
  · rw [h]
    exact nodup_processRows now _ ParseState.init _ rfl List.nodup_nil

/-- Claim C7.  For every input, the job at 1-based position i of the list returned by
`parseCSV` has id i: the ids are 1, 2, ..., n in order, so a skipped row uses up
no id. -/
theorem C7_ids_dense (now : JSString) (csvText : JSValue) :
    (parseCSV now csvText).map Job.id = List.range' 1 (parseCSV now csvText).length ∧
      ∀ i, ((parseCSV now csvText).get? i).map Job.id
        = if i < (parseCSV now csvText).length then some (i + 1) else none := by
  have h := ids_parseCSV now csvText
  refine ⟨h, fun i => ?_⟩
  have h2 : ((parseCSV now csvText).map Job.id).get? i
      = (List.range' 1 (parseCSV now csvText).length).get? i := by rw [h]
  simp only [List.get?_eq_getElem?, List.getElem?_map] at h2 ⊢
  rw [h2]
  split
  · rename_i hi
    simp [List.getElem?_range', hi, Nat.add_comm]
  · rename_i hi
    simp [List.getElem?_eq_none, Nat.le_of_not_lt hi]

/-- Claim C3.  A data row with the same title, location and type (after defaults) as
a job accepted from the rows before it is rejected, whatever its other fields are:
the list `parseCSV` returns is the list it returns for the text with that row
deleted. -/
theorem C3_duplicate_row_rejected (now : JSString) (lead header : List Char)
    (pre : List (List Char)) (r : List Char) (post : List (List Char))
    (hlead : ∀ c ∈ lead, isWhiteSpace c = true)
    (hhead : ∃ c ∈ header, isWhiteSpace c = false)
    (hnl : ∀ l ∈ header :: (pre ++ r :: post), '\n' ∉ l)
    (hdup : ∃ j ∈ parseCSV now (.str (lead ++ joinWith '\n' (header :: pre))),
      j.title = (formatJob now (buildRowObject (parseHeaders header)
          (parseCSVLine (.str r))) 0).title ∧
      j.location = (formatJob now (buildRowObject (parseHeaders header)
          (parseCSVLine (.str r))) 0).location ∧
      j.type = (formatJob now (buildRowObject (parseHeaders header)
          (parseCSVLine (.str r))) 0).type) :
    parseCSV now (.str (lead ++ joinWith '\n' (header :: (pre ++ r :: post))))
      = parseCSV now (.str (lead ++ joinWith '\n' (header :: (pre ++ post)))) := by
  apply parseCSV_skip now lead header pre r post hlead hhead hnl
  apply processRow_reject
  right; right
  obtain ⟨j, hj, h1, h2, h3⟩ := hdup
  rw [parseCSV_lines now lead header pre hlead hhead
    (fun l hl => hnl l (by
      rcases List.mem_cons.1 hl with h | h
      · simp [h]
      · simp [h]))] at hj
  rw [seenJobs_processRows now _ ParseState.init pre rfl, List.mem_reverse]
  exact List.mem_map.2 ⟨j, hj, jobKey_congr h1 h2 h3⟩

/-- Claim C4.  Every job `parseCSV` returns has a non-empty title other than the
placeholder.  A data row whose Title value is missing, empty (a value of white space
only is tokenized to the empty string) or the placeholder itself is never accepted,
whatever its other fields are: the list returned is the one for the text without
that row; and a text whose header has no Title column yields no job. -/
theorem C4_title_required (now : JSString) :
    (∀ csvText, ∀ j ∈ parseCSV now csvText,
      j.title ≠ [] ∧ j.title ≠ "Untitled Position".data) ∧
    (∀ (lead header : List Char) (pre : List (List Char)) (r : List Char)
      (post : List (List Char)),
      (∀ c ∈ lead, isWhiteSpace c = true) →
      (∃ c ∈ header, isWhiteSpace c = false) →
      (∀ l ∈ header :: (pre ++ r :: post), '\n' ∉ l) →
      (columnValue (parseHeaders header) (parseCSVLine (.str r)) "title".data = none ∨
        columnValue (parseHeaders header) (parseCSVLine (.str r)) "title".data = some [] ∨
        columnValue (parseHeaders header) (parseCSVLine (.str r)) "title".data
          = some "Untitled Position".data) →
      parseCSV now (.str (lead ++ joinWith '\n' (header :: (pre ++ r :: post))))
        = parseCSV now (.str (lead ++ joinWith '\n' (header :: (pre ++ post))))) ∧
    (∀ text : List Char,
      (∀ h ∈ parseHeaders ((split '\n' (trim text)).headD []), toLowerCase h ≠ "title".data) →
      parseCSV now (.str text) = []) := by
  refine ⟨?_, ?_, ?_⟩
  · intro csvText j hj
    rcases parseCSV_eq now csvText with h | ⟨text, _, h⟩
    · rw [h] at hj; simp at hj
    · rw [h] at hj
      exact titles_processRows now _ ParseState.init _ (by simp [ParseState.init]) j hj
  · intro lead header pre r post hlead hhead hnl hbad
    apply parseCSV_skip now lead header pre r post hlead hhead hnl
    apply processRow_reject
    right; left
    simp only [formatJob, getProp_buildRowObject]
    rcases hbad with h | h | h <;> rw [h] <;> simp [orDefault, untitledPosition]
  · intro text hno
    rcases parseCSV_eq now (.str text) with h | ⟨text2, ht, h⟩
    · exact h
    · cases ht
      rw [h]
      have hall : ∀ (lines : List JSString) (st : ParseState),
          processRows now (parseHeaders ((split '\n' (trim text)).headD [])) st lines = st := by
        intro lines
        induction lines with
        | nil => intro st; rfl
        | cons l ls ih =>
          intro st
          rw [processRows_cons, processRow_reject, ih]
          right; left
          simp only [formatJob, getProp_buildRowObject, columnValue_none hno]
          rfl
      rw [hall]
      rfl

/-- Claim C8.  A data row whose tokenized field count differs from the header's is
skipped without any other effect: inserting such a line at any position after the
header leaves the list returned by `parseCSV` unchanged. -/
theorem C8_mismatched_row_skipped (now : JSString) (lead header : List Char)
    (pre : List (List Char)) (b : List Char) (post : List (List Char))
    (hlead : ∀ c ∈ lead, isWhiteSpace c = true)
    (hhead : ∃ c ∈ header, isWhiteSpace c = false)
    (hnl : ∀ l ∈ header :: (pre ++ b :: post), '\n' ∉ l)
    (hb : (parseCSVLine (.str b)).length ≠ (parseHeaders header).length) :
    parseCSV now (.str (lead ++ joinWith '\n' (header :: (pre ++ b :: post))))
      = parseCSV now (.str (lead ++ joinWith '\n' (header :: (pre ++ post)))) := by
  apply parseCSV_skip now lead header pre b post hlead hhead hnl
  exact processRow_reject now _ _ b (Or.inl hb)

theorem fieldFrom_orDefault (cv : Option JSString) (dflt : JSString) :
    FieldFrom cv dflt (orDefault cv dflt) := by
  constructor
  · intro v hv hne
    rw [hv]
    cases v with
    | nil => exact absurd rfl hne
    | cons c cs => rfl
  · intro h
    rcases h with h | h <;> rw [h] <;> rfl

/-- Claim C5.  Every job returned by `parseCSV` comes from a data line with as many
values as there are headers; its title is the value of the Title column, and each of
location, type, salary and description is the value of the column of that name when
that value is non-empty, and otherwise (value empty, or no such column) the default:
'Location not specified', 'Full-time', 'Salary not specified', 'No description
available', and the empty list for requirements.  The two-line text with header
Title,Location and the row "X","Y, Z" yields exactly one job, with id 1, title X,
location 'Y, Z' and every other field at its default. -/
theorem C5_fields_and_defaults (now : JSString) :
    (∀ text : List Char, ∀ j ∈ parseCSV now (.str text),
      ∃ line ∈ (split '\n' (trim text)).drop 1,
        RowFields (parseHeaders ((split '\n' (trim text)).headD []))
          (parseCSVLine (.str line)) j) ∧
    parseCSV now (.str "Title,Location\n\"X\",\"Y, Z\"".data)
      = [{ id := 1, title := "X".data, location := "Y, Z".data, type := "Full-time".data,
           salary := "Salary not specified".data,
           description := "No description available".data,
           requirements := [], datePosted := now }] := by
  refine ⟨?_, by rfl⟩
  intro text j hj
  have htitle : j.title ≠ [] ∧ j.title ≠ untitledPosition := by
    rcases parseCSV_eq now (.str text) with h | ⟨text2, _, h⟩
    · rw [h] at hj; simp at hj
    · rw [h] at hj
      exact titles_processRows now _ ParseState.init _ (by simp [ParseState.init]) j hj
  rcases parseCSV_eq now (.str text) with h | ⟨text2, ht, h⟩
  · rw [h] at hj; simp at hj
  · cases ht
    rw [h] at hj
    rcases origin_processRows now _ ParseState.init _ j hj with h0 | ⟨line, hl, hlen, hjob⟩
    · simp [ParseState.init] at h0
    · refine ⟨line, hl, hlen, htitle.1, ?_, ?_, ?_, ?_, ?_, ?_⟩
      · have e : j.title = orDefault (columnValue
            (parseHeaders ((split '\n' (trim text)).headD []))
            (parseCSVLine (.str line)) "title".data) untitledPosition := by
          conv_lhs => rw [hjob]
          simp only [formatJob, getProp_buildRowObject]
        cases hcv : columnValue (parseHeaders ((split '\n' (trim text)).headD []))
            (parseCSVLine (.str line)) "title".data with
        | none => rw [hcv] at e; exact absurd e htitle.2
        | some v =>
          rw [hcv] at e
          cases v with
          | nil => exact absurd e htitle.2
          | cons c cs => rw [e]; rfl
      · have e : j.location = orDefault (columnValue
            (parseHeaders ((split '\n' (trim text)).headD []))
            (parseCSVLine (.str line)) "location".data) locationNotSpecified := by
          conv_lhs => rw [hjob]
          simp only [formatJob, getProp_buildRowObject]
        rw [e]
        exact fieldFrom_orDefault _ _
      · have e : j.type = orDefault (columnValue
            (parseHeaders ((split '\n' (trim text)).headD []))
            (parseCSVLine (.str line)) "type".data) fullTime := by
          conv_lhs => rw [hjob]
          simp only [formatJob, getProp_buildRowObject]
        rw [e]
        exact fieldFrom_orDefault _ _
      · have e : j.salary = orDefault (columnValue
            (parseHeaders ((split '\n' (trim text)).headD []))
            (parseCSVLine (.str line)) "salary".data) salaryNotSpecified := by
          conv_lhs => rw [hjob]
          simp only [formatJob, getProp_buildRowObject]
        rw [e]
        exact fieldFrom_orDefault _ _
      · have e : j.description = orDefault (columnValue
            (parseHeaders ((split '\n' (trim text)).headD []))
            (parseCSVLine (.str line)) "description".data) noDescription := by
          conv_lhs => rw [hjob]
          simp only [formatJob, getProp_buildRowObject]
        rw [e]
        exact fieldFrom_orDefault _ _
      · intro hreq
        have e : j.requirements = parseRequirements (columnValue
            (parseHeaders ((split '\n' (trim text)).headD []))
            (parseCSVLine (.str line)) "requirements".data) := by
          conv_lhs => rw [hjob]
          simp only [formatJob, getProp_buildRowObject]
        rw [e]
        rcases hreq with h | h <;> rw [h] <;> rfl

/-! ## The tokenizer and its reference -/

theorem rawPieces_ne_nil (q : Bool) (s : List Char) : rawPieces q s ≠ [] := by
  induction s generalizing q with
  | nil => simp [rawPieces]
  | cons c cs ih =>
    unfold rawPieces
    split
    · simp
    · split <;> simp

theorem rawPieces_cons_cut (q : Bool) (c : Char) (cs : List Char) (h : c = ',' ∧ q = false) :
    rawPieces q (c :: cs) = [] :: rawPieces q cs := by
  rw [rawPieces, if_pos h]

theorem rawPieces_cons_keep (q : Bool) (c : Char) (cs : List Char) (h : ¬ (c = ',' ∧ q = false)) :
    rawPieces q (c :: cs)
      = (c :: (rawPieces (if c = '"' then !q else q) cs).headD [])
        :: (rawPieces (if c = '"' then !q else q) cs).tail := by
  rw [rawPieces, if_neg h]
  cases hs : rawPieces (if c = '"' then !q else q) cs with
  | nil => exact absurd hs (rawPieces_ne_nil _ _)
  | cons p ps => simp

theorem scanLine_rawPieces (s : List Char) (current : JSString) (q : Bool) :
    scanLine s [] current q
      = trim (current ++ removeQuotes ((rawPieces q s).headD []))
        :: (rawPieces q s).tail.map (fun piece => trim (removeQuotes piece)) := by
  induction s generalizing current q with
  | nil => simp [scanLine, rawPieces, removeQuotes]
  | cons c cs ih =>
    by_cases h1 : c = '"'
    · subst h1
      rw [scanLine, if_pos rfl, ih, rawPieces_cons_keep _ _ _ (by simp)]
      simp [removeQuotes]
    · by_cases h2 : c = ',' ∧ q = false
      · rw [scanLine, if_neg h1, if_pos h2, scanLine_result, ih, rawPieces_cons_cut _ _ _ h2]
        cases hs : rawPieces q cs with
        | nil => exact absurd hs (rawPieces_ne_nil _ _)
        | cons p ps => simp [removeQuotes]
      · rw [scanLine, if_neg h1, if_neg h2, ih, rawPieces_cons_keep _ _ _ h2, if_neg h1]
        simp [removeQuotes, h1]

theorem cutPositions_eq (line : List Char) : cutPositions line = cutPositionsFrom 0 line := by
  simp [cutPositions, cutPositionsFrom]

theorem cutPositionsFrom_cons (n : Nat) (c : Char) (cs : List Char) :
    cutPositionsFrom n (c :: cs)
      = (if c = ',' ∧ n % 2 = 0 then [0] else [])
        ++ (cutPositionsFrom (n + if c = '"' then 1 else 0) cs).map Nat.succ := by
  unfold cutPositionsFrom
  rw [List.length_cons, List.range_succ_eq_map, List.filter_cons, List.filter_map]
  have hfun : ((fun i => decide ((c :: cs).get? i = some ',' ∧
        (n + List.count '"' (List.take i (c :: cs))) % 2 = 0)) ∘ Nat.succ)
      = (fun i => decide (cs.get? i = some ',' ∧
        ((n + if c = '"' then 1 else 0) + List.count '"' (List.take i cs)) % 2 = 0)) := by
    funext i
    simp only [Function.comp, List.get?_cons_succ, List.take_succ_cons, List.count_cons]
    by_cases hc : c = '"'
    · subst hc; simp [Nat.add_comm, Nat.add_left_comm]
    · have : (c == '"') = false := by simpa using hc
      simp [hc, this]
  rw [hfun]
  by_cases h : c = ',' ∧ n % 2 = 0
  · simp [h]
  · have : ¬ (c = ',' ∧ n % 2 = 0) := h
    simp [h]

theorem piecesFrom_shift (c : Char) (cs : List Char) (k : Nat) (cuts : List Nat) :
    piecesFrom (c :: cs) (k + 1) (cuts.map Nat.succ) = piecesFrom cs k cuts := by
  induction cuts generalizing k with
  | nil => simp [piecesFrom]
  | cons x xs ih =>
    simp only [List.map_cons, piecesFrom, List.drop_succ_cons, Nat.succ_eq_add_one,
      Nat.add_sub_add_right]
    rw [ih (x + 1)]

theorem piecesFrom_zero_succ (c : Char) (cs : List Char) (cuts : List Nat) :
    piecesFrom (c :: cs) 0 (cuts.map Nat.succ)
      = (c :: (piecesFrom cs 0 cuts).headD []) :: (piecesFrom cs 0 cuts).tail := by
  cases cuts with
  | nil => simp [piecesFrom]
  | cons x xs =>
    simp only [List.map_cons, piecesFrom, List.drop_zero, Nat.sub_zero, Nat.succ_eq_add_one,
      List.take_succ_cons, List.headD_cons, List.tail_cons]
    rw [piecesFrom_shift]

theorem rawPieces_eq_piecesFrom (s : List Char) (q : Bool) (n : Nat)
    (hq : q = false ↔ n % 2 = 0) :
    rawPieces q s = piecesFrom s 0 (cutPositionsFrom n s) := by
  induction s generalizing q n with
  | nil => simp [rawPieces, cutPositionsFrom, piecesFrom]
  | cons c cs ih =>
    rw [cutPositionsFrom_cons]
    by_cases h : c = ',' ∧ q = false
    · have hc : c ≠ '"' := by rw [h.1]; decide
      rw [rawPieces_cons_cut _ _ _ h, if_pos ⟨h.1, hq.1 h.2⟩, if_neg hc, Nat.add_zero]
      have e : ([0] ++ (cutPositionsFrom n cs).map Nat.succ)
          = 0 :: (cutPositionsFrom n cs).map Nat.succ := rfl
      rw [e, piecesFrom, piecesFrom_shift, ih q n hq]
      simp
    · have h2 : ¬ (c = ',' ∧ n % 2 = 0) := fun hh => h ⟨hh.1, hq.2 hh.2⟩
      rw [rawPieces_cons_keep _ _ _ h, if_neg h2, List.nil_append, piecesFrom_zero_succ]
      have hq2 : ((if c = '"' then !q else q) = false ↔ (n + if c = '"' then 1 else 0) % 2 = 0) := by
        by_cases hc : c = '"'
        · simp only [hc, if_true]
          cases q with
          | false =>
            have := hq.1 rfl
            simp; omega
          | true =>
            have : ¬ n % 2 = 0 := fun e => by simpa using hq.2 e
            simp; omega
        · simp only [hc, if_false, Nat.add_zero]
          exact hq
      rw [ih _ _ hq2]

theorem length_piecesFrom (s : List Char) (k : Nat) (cuts : List Nat) :
    (piecesFrom s k cuts).length = 1 + cuts.length := by
  induction cuts generalizing k with
  | nil => simp [piecesFrom]
  | cons x xs ih => simp [piecesFrom, ih, Nat.add_comm]

theorem parseCSVLine_eq_spec (line : JSValue) : parseCSVLine line = specParseCSVLine line := by
  cases line with
  | str s =>
    by_cases hs : s = []
    · subst hs; rfl
    · rw [parseCSVLine_str hs, scanLine_rawPieces]
      simp only [specParseCSVLine, hs, if_false, cutPositions_eq]
      rw [← rawPieces_eq_piecesFrom s false 0 (by simp)]
      cases h : rawPieces false s with
      | nil => exact absurd h (rawPieces_ne_nil _ _)
      | cons p ps => simp
  | undefined => rfl
  | null => rfl
  | number n => rfl
  | bool b => rfl
  | object => rfl

theorem not_mem_trim_removeQuotes (p : List Char) : '"' ∉ trim (removeQuotes p) := by
  intro h
  have h1 : '"' ∈ removeQuotes p := by
    apply (List.dropWhile_suffix isWhiteSpace).subset
    exact (List.rdropWhile_prefix isWhiteSpace _).subset h
  simp [removeQuotes] at h1

theorem head_trim_not_ws (s : List Char) (c : Char) (h : (trim s).head? = some c) :
    isWhiteSpace c = false := by
  unfold trim at h
  have hne : (s.dropWhile isWhiteSpace).rdropWhile isWhiteSpace ≠ [] := by
    intro e; rw [e] at h; simp at h
  have hne2 : s.dropWhile isWhiteSpace ≠ [] := by
    intro e; rw [e] at hne; exact hne (by simp)
  obtain ⟨t, ht⟩ := List.rdropWhile_prefix isWhiteSpace (s.dropWhile isWhiteSpace)
  have h3 : (s.dropWhile isWhiteSpace).head? = some c := by
    rw [← ht, List.head?_append_of_ne_nil _ hne, h]
  have h4 := List.head_dropWhile_not isWhiteSpace s hne2
  rw [List.head?_eq_head hne2] at h3
  simp only [Option.some.injEq] at h3
  rw [← h3]
  exact h4

theorem getLast_trim_not_ws (s : List Char) (c : Char) (h : (trim s).getLast? = some c) :
    isWhiteSpace c = false := by
  unfold trim at h
  have hne : (s.dropWhile isWhiteSpace).rdropWhile isWhiteSpace ≠ [] := by
    intro e; rw [e] at h; simp at h
  have h2 := List.rdropWhile_last_not isWhiteSpace (s.dropWhile isWhiteSpace) hne
  rw [List.getLast?_eq_getLast _ hne] at h
  simp only [Option.some.injEq] at h
  rw [← h]
  simpa using h2

/-- Claim C9.  `parseCSVLine` is the reference tokenizer: the line cut at each comma
preceded by an even number of double quotes, every double quote deleted from each
piece, each piece trimmed.  For a non-empty string the result has one field more than
there are such commas, and no field holds a double quote or begins or ends with white
space; for the empty string and for a value that is no string the result is empty. -/
theorem C9_tokenizer_reference (line : JSValue) :
    parseCSVLine line = specParseCSVLine line ∧
    (∀ s, line = .str s → s ≠ [] →
      (parseCSVLine line).length = 1 + (cutPositions s).length ∧
      ∀ f ∈ parseCSVLine line, '"' ∉ f ∧
        (∀ c, f.head? = some c → isWhiteSpace c = false) ∧
        (∀ c, f.getLast? = some c → isWhiteSpace c = false)) ∧
    ((line = .str [] ∨ line.isString = false) → parseCSVLine line = []) := by
  refine ⟨parseCSVLine_eq_spec line, ?_, ?_⟩
  · intro s hline hs
    subst hline
    rw [parseCSVLine_eq_spec]
    simp only [specParseCSVLine, hs, if_false]
    refine ⟨by rw [List.length_map, length_piecesFrom], ?_⟩
    intro f hf
    obtain ⟨p, _, rfl⟩ := List.mem_map.1 hf
    exact ⟨not_mem_trim_removeQuotes p, head_trim_not_ws _, getLast_trim_not_ws _⟩
  · intro h
    rcases h with h | h
    · rw [h]; rfl
    · cases line with
      | str s => simp [JSValue.isString] at h
      | undefined => rfl
      | null => rfl
      | number n => rfl
      | bool b => rfl
      | object => rfl

/-! ## Writing fields and reading them back -/

theorem scanLine_content (f rest : List Char) (result : List JSString) (current : JSString)
    (q : Bool) (hq : '"' ∉ f) (hc : q = false → ',' ∉ f) :
    scanLine (f ++ rest) result current q = scanLine rest result (current ++ f) q := by
  induction f generalizing current with
  | nil => simp
  | cons c cs ih =>
    have h1 : c ≠ '"' := fun e => hq (by simp [e])
    have h2 : ¬ (c = ',' ∧ q = false) := fun e => hc e.2 (by simp [e.1])
    rw [List.cons_append, scanLine, if_neg h1, if_neg h2,
      ih _ (fun m => hq (List.mem_cons_of_mem _ m))
        (fun e m => hc e (List.mem_cons_of_mem _ m))]
    simp

theorem scanLine_writeField (fq : JSString × Bool) (rest : List Char) (result : List JSString)
    (hq : '"' ∉ fq.1) (hc : fq.2 = false → ',' ∉ fq.1) :
    scanLine (writeField fq ++ rest) result [] false = scanLine rest result fq.1 false := by
  unfold writeField
  by_cases h : fq.2 = true
  · rw [if_pos h]
    simp only [quoteField, List.cons_append, List.append_assoc, List.singleton_append]
    rw [scanLine, if_pos rfl, scanLine_content _ _ _ _ _ hq (by simp), scanLine, if_pos rfl]
    simp
  · rw [if_neg h]
    have h2 : fq.2 = false := by simpa using h
    rw [scanLine_content _ _ _ _ _ hq (fun _ => hc h2)]
    simp

theorem trim_eq_self {f : List Char}
    (h1 : ∀ c, f.head? = some c → isWhiteSpace c = false)
    (h2 : ∀ c, f.getLast? = some c → isWhiteSpace c = false) : trim f = f := by
  unfold trim
  have hd : f.dropWhile isWhiteSpace = f := by
    cases f with
    | nil => rfl
    | cons c cs =>
      have := h1 c rfl
      rw [List.dropWhile_cons_of_neg (by simp [this])]
  rw [hd, List.rdropWhile_eq_self_iff]
  intro hne
  have := h2 (f.getLast hne) (List.getLast?_eq_getLast _ hne)
  simp [this]

theorem scanLine_fields (fq : JSString × Bool) (fields : List (JSString × Bool))
    (result : List JSString)
    (hq : ∀ x ∈ fq :: fields, '"' ∉ x.1)
    (ht : ∀ x ∈ fq :: fields, trim x.1 = x.1)
    (hc : ∀ x ∈ fq :: fields, x.2 = false → ',' ∉ x.1) :
    scanLine (joinWith ',' ((fq :: fields).map writeField)) result [] false
      = result ++ (fq :: fields).map Prod.fst := by
  induction fields generalizing fq result with
  | nil =>
    have := scanLine_writeField fq [] result (hq fq (by simp)) (hc fq (by simp))
    rw [List.append_nil] at this
    simp only [List.map_cons, List.map_nil, joinWith]
    rw [this, scanLine, ht fq (by simp)]
  | cons g gs ih =>
    simp only [List.map_cons, joinWith]
    rw [scanLine_writeField fq _ result (hq fq (by simp)) (hc fq (by simp)), scanLine,
      if_neg (by decide), if_pos ⟨rfl, rfl⟩, ht fq (by simp)]
    have := ih g (result ++ [fq.1]) (fun x hx => hq x (List.mem_cons_of_mem _ hx))
      (fun x hx => ht x (List.mem_cons_of_mem _ hx))
      (fun x hx => hc x (List.mem_cons_of_mem _ hx))
    simp only [List.map_cons] at this
    rw [this]
    simp

theorem joinWith_writeField_ne_nil {fields : List (JSString × Bool)} (hne : fields ≠ [])
    (hnot : fields ≠ [([], false)]) : joinWith ',' (fields.map writeField) ≠ [] := by
  cases fields with
  | nil => exact absurd rfl hne
  | cons fq rest =>
    cases rest with
    | nil =>
      obtain ⟨f, q⟩ := fq
      cases q with
      | true => simp [joinWith, writeField, quoteField]
      | false =>
        cases f with
        | nil => exact absurd rfl hnot
        | cons c cs => simp [joinWith, writeField]
    | cons g gs => simp [joinWith]

/-- Claim C6, as amended.  For every non-empty list of fields that hold no double
quote and neither begin nor end with white space, each written either wrapped in
double quotes or, when it holds no comma, as it is, `parseCSVLine` applied to the
fields joined with commas returns exactly the fields, in order, unless the list is the
single empty field left unquoted, whose line is the empty string.  When every field is
wrapped the exception cannot occur. -/
theorem C6_fields_round_trip (fields : List (JSString × Bool)) (hne : fields ≠ [])
    (hquote : ∀ fq ∈ fields, '"' ∉ fq.1)
    (hws : ∀ fq ∈ fields, (∀ c, fq.1.head? = some c → isWhiteSpace c = false) ∧
      (∀ c, fq.1.getLast? = some c → isWhiteSpace c = false))
    (hcomma : ∀ fq ∈ fields, fq.2 = false → ',' ∉ fq.1)
    (hnot : fields ≠ [([], false)]) :
    parseCSVLine (.str (joinWith ',' (fields.map writeField))) = fields.map Prod.fst := by
  rw [parseCSVLine_str (joinWith_writeField_ne_nil hne hnot)]
  cases fields with
  | nil => exact absurd rfl hne
  | cons fq rest =>
    rw [scanLine_fields fq rest [] hquote
      (fun x hx => trim_eq_self (hws x hx).1 (hws x hx).2) hcomma]
    simp

/-- Claim C6 as stated fails at the single empty field left unquoted: it is written
as the empty line, for which `parseCSVLine` returns no field at all instead of the one
empty field, although the list meets every condition of the claim. -/
theorem C6_unquoted_empty_field :
    parseCSVLine (.str (joinWith ',' ([(([] : JSString), false)].map writeField))) = [] ∧
    [(([] : JSString), false)].map Prod.fst = [[]] ∧
    ¬ (∀ fields : List (JSString × Bool), fields ≠ [] →
        (∀ fq ∈ fields, '"' ∉ fq.1) →
        (∀ fq ∈ fields, (∀ c, fq.1.head? = some c → isWhiteSpace c = false) ∧
          (∀ c, fq.1.getLast? = some c → isWhiteSpace c = false)) →
        (∀ fq ∈ fields, fq.2 = false → ',' ∉ fq.1) →
        parseCSVLine (.str (joinWith ',' (fields.map writeField))) = fields.map Prod.fst) := by
  refine ⟨by decide, rfl, ?_⟩
  intro h
  have := h [([], false)] (by simp) (by simp) (by simp) (by simp)
  simp [joinWith, writeField, parseCSVLine] at this

/-! ## The acquisition pipeline -/

/-- Claim C10.  When the primary source answers with a success status and a body that
`parseCSV` turns into at least one job, a run of `loadJobsFromCSV` ends with the
store holding exactly the jobs parsed from that body, whatever it held before; only
the primary source is used, and the loading flag is cleared. -/
theorem C10_primary_success (env : Sources) (m : JobManager) (body : JSString)
    (hidle : m.isLoading = false)
    (hsheet : env.sheet = .response true body)
    (hjobs : 1 ≤ (parseCSV env.now (.str body)).length) :
    (loadJobsFromCSV env m).jobs = parseCSV env.now (.str body) ∧
      (loadJobsFromCSV env m).used = m.used ++ [Source.primary] ∧
      (loadJobsFromCSV env m).isLoading = false ∧
      (loadJobsFromCSV env m).jobs ≠ [] := by
  have hne : parseCSV env.now (.str body) ≠ [] := by
    intro e; rw [e] at hjobs; simp at hjobs
  simp [loadJobsFromCSV, hidle, fetchFromGoogleSheets, hsheet, hne]

/-! ## The claims at concrete inputs -/

/-- Claim C1 at a header with two columns and two rows, one of them quoted. -/
theorem C1_one_job_per_row_witness :
    parseCSV "2024-08-14".data
        (.str (joinWith '\n' ["Title,Location".data, "\"A\",\"B, C\"".data, "D,E".data]))
        = ["\"A\",\"B, C\"".data, "D,E".data].enum.map (fun ir =>
            formatJob "2024-08-14".data
              (buildRowObject (parseHeaders "Title,Location".data) (parseCSVLine (.str ir.2))) ir.1)
      ∧ (parseCSV "2024-08-14".data
          (.str (joinWith '\n' ["Title,Location".data, "\"A\",\"B, C\"".data,
            "D,E".data]))).length = 2
      ∧ (parseCSV "2024-08-14".data
          (.str (joinWith '\n' ["Title,Location".data, "\"A\",\"B, C\"".data,
            "D,E".data]))).map Job.id = List.range' 1 2 :=
  C1_one_job_per_row "2024-08-14".data "Title,Location".data
    ["\"A\",\"B, C\"".data, "D,E".data] (by decide) (by decide) (by decide) (by decide)
    (by decide)

/-- Claim C3 at two rows titled A with different salaries, followed by a third row. -/
theorem C3_duplicate_row_rejected_witness :
    parseCSV "2024-08-14".data
        (.str ([] ++ joinWith '\n' ("Title,Salary".data :: (["A,1".data] ++ "A,2".data
          :: ["B,3".data]))))
      = parseCSV "2024-08-14".data
        (.str ([] ++ joinWith '\n' ("Title,Salary".data :: (["A,1".data] ++ ["B,3".data])))) :=
  C3_duplicate_row_rejected "2024-08-14".data [] "Title,Salary".data ["A,1".data] "A,2".data
    ["B,3".data] (by decide) (by decide) (by decide) (by decide)

/-- Claim C4 at a row whose Title value is a single space. -/
theorem C4_title_required_witness :
    parseCSV "2024-08-14".data
        (.str ([] ++ joinWith '\n' ("Title,Location".data :: (["A,B".data] ++ " ,C".data :: []))))
      = parseCSV "2024-08-14".data
        (.str ([] ++ joinWith '\n' ("Title,Location".data :: (["A,B".data] ++ [])))) :=
  (C4_title_required "2024-08-14".data).2.1 [] "Title,Location".data ["A,B".data] " ,C".data []
    (by decide) (by decide) (by decide) (by decide)

/-- Claim C5 at a row with title X and an empty Location value. -/
theorem C5_fields_and_defaults_witness :
    ∃ line ∈ (split '\n' (trim "Title,Location\nX,".data)).drop 1,
      RowFields (parseHeaders ((split '\n' (trim "Title,Location\nX,".data)).headD []))
        (parseCSVLine (.str line))
        { id := 1, title := "X".data, location := "Location not specified".data,
          type := "Full-time".data, salary := "Salary not specified".data,
          description := "No description available".data, requirements := [],
          datePosted := "2024-08-14".data } :=
  (C5_fields_and_defaults "2024-08-14".data).1 "Title,Location\nX,".data _ (by decide)

/-- Claim C6 at the fields 'A, B' (quoted) and 'C' (unquoted). -/
theorem C6_fields_round_trip_witness :
    parseCSVLine (.str (joinWith ',' ([("A, B".data, true), ("C".data, false)].map writeField)))
      = [("A, B".data, true), ("C".data, false)].map Prod.fst :=
  C6_fields_round_trip [("A, B".data, true), ("C".data, false)] (by decide) (by decide)
    (by
      intro fq hfq
      simp only [List.mem_cons, List.mem_singleton, List.not_mem_nil, or_false] at hfq
      rcases hfq with h | h <;> subst h <;> refine ⟨?_, ?_⟩ <;> intro c hc <;>
        simp at hc <;> subst hc <;> decide)
    (by decide) (by decide)

/-- Claim C8 at a one-field line inserted between two rows of a two-column text. -/
theorem C8_mismatched_row_skipped_witness :
    parseCSV "2024-08-14".data
        (.str ([] ++ joinWith '\n' ("Title,Location".data :: (["A,B".data] ++ "oops".data
          :: ["C,D".data]))))
      = parseCSV "2024-08-14".data
        (.str ([] ++ joinWith '\n' ("Title,Location".data :: (["A,B".data] ++ ["C,D".data])))) :=
  C8_mismatched_row_skipped "2024-08-14".data [] "Title,Location".data ["A,B".data] "oops".data
    ["C,D".data] (by decide) (by decide) (by decide) (by decide)

/-- Claim C9 at a line with a quoted comma. -/
theorem C9_tokenizer_reference_witness :
    (parseCSVLine (.str "\"A, B\",C".data)).length = 1 + (cutPositions "\"A, B\",C".data).length ∧
      ∀ f ∈ parseCSVLine (.str "\"A, B\",C".data), '"' ∉ f ∧
        (∀ c, f.head? = some c → isWhiteSpace c = false) ∧
        (∀ c, f.getLast? = some c → isWhiteSpace c = false) :=
  (C9_tokenizer_reference (.str "\"A, B\",C".data)).2.1 "\"A, B\",C".data rfl (by decide)

/-- Claim C10 at a three-row body, the store holding the sample jobs beforehand. -/
theorem C10_primary_success_witness :
    (loadJobsFromCSV
        { sheet := .response true "Title\nA\nB\nC".data, proxy := .failed,
          manualCSVData := .undefined, now := "2024-08-14".data, dayAgo := "2024-08-13".data }
        { jobs := sampleJobs [] [], isLoading := false, used := [] }).jobs
        = parseCSV "2024-08-14".data (.str "Title\nA\nB\nC".data) ∧
      (loadJobsFromCSV
        { sheet := .response true "Title\nA\nB\nC".data, proxy := .failed,
          manualCSVData := .undefined, now := "2024-08-14".data, dayAgo := "2024-08-13".data }
        { jobs := sampleJobs [] [], isLoading := false, used := [] }).used
        = [] ++ [Source.primary] ∧
      (loadJobsFromCSV
        { sheet := .response true "Title\nA\nB\nC".data, proxy := .failed,
          manualCSVData := .undefined, now := "2024-08-14".data, dayAgo := "2024-08-13".data }
        { jobs := sampleJobs [] [], isLoading := false, used := [] }).isLoading = false ∧
      (loadJobsFromCSV
        { sheet := .response true "Title\nA\nB\nC".data, proxy := .failed,
          manualCSVData := .undefined, now := "2024-08-14".data, dayAgo := "2024-08-13".data }
        { jobs := sampleJobs [] [], isLoading := false, used := [] }).jobs ≠ [] :=
  C10_primary_success
    { sheet := .response true "Title\nA\nB\nC".data, proxy := .failed,
      manualCSVData := .undefined, now := "2024-08-14".data, dayAgo := "2024-08-13".data }
    { jobs := sampleJobs [] [], isLoading := false, used := [] } "Title\nA\nB\nC".data
    rfl rfl (by decide)

/-! ## The pipeline past the primary source -/

theorem sampleJobs_ne_nil (now dayAgo : JSString) : sampleJobs now dayAgo ≠ [] := by
  unfold sampleJobs
  exact List.cons_ne_nil _ _

theorem watchdog_jobs_ne_nil (env : Sources) (m : JobManager) : (watchdog env m).jobs ≠ [] := by
  unfold watchdog
  split
  · exact sampleJobs_ne_nil _ _
  · rename_i h
    intro e
    rw [e] at h
    exact h rfl

theorem loadJobsFromCSV_idle (env : Sources) (m : JobManager) (h : m.isLoading = false) :
    loadJobsFromCSV env m = loadRest env (loadStart m) := by
  simp [loadJobsFromCSV, loadRest, loadStart, h]

theorem loadRest_primary (env : Sources) (m : JobManager) (body : JSString)
    (h : env.sheet = .response true body) :
    loadRest env m
      = { m with jobs := parseCSV env.now (.str body), isLoading := false,
                 used := m.used ++ [Source.primary] } := by
  simp [loadRest, fetchFromGoogleSheets, h]

theorem fetchFromGoogleSheets_declined (env : Sources) (m : JobManager)
    (h : ∀ body, env.sheet ≠ .response true body) :
    fetchFromGoogleSheets env m = ({ m with used := m.used ++ [Source.primary] }, false) := by
  unfold fetchFromGoogleSheets
  cases hs : env.sheet with
  | failed => rfl
  | response ok body =>
    cases ok with
    | false => rfl
    | true => exact absurd hs (h body)

theorem fetchFromCorsProxy_declined (env : Sources) (m : JobManager)
    (h : ∀ contents, env.proxy ≠ .response true (some contents)) :
    fetchFromCorsProxy env m = ({ m with used := m.used ++ [Source.secondary] }, false) := by
  unfold fetchFromCorsProxy
  cases hs : env.proxy with
  | failed => rfl
  | response ok contents =>
    cases ok with
    | false => rfl
    | true =>
      cases contents with
      | none => rfl
      | some c => exact absurd hs (h c)

theorem loadRest_secondary (env : Sources) (m : JobManager) (contents : JSValue)
    (h1 : ∀ body, env.sheet ≠ .response true body)
    (h2 : env.proxy = .response true (some contents)) :
    loadRest env m
      = { m with jobs := parseCSV env.now contents, isLoading := false,
                 used := m.used ++ [Source.primary, Source.secondary] } := by
  simp [loadRest, fetchFromGoogleSheets_declined env m h1, fetchFromCorsProxy, h2]

theorem loadRest_manual (env : Sources) (m : JobManager)
    (h1 : ∀ body, env.sheet ≠ .response true body)
    (h2 : ∀ contents, env.proxy ≠ .response true (some contents))
    (h3 : env.manualCSVData.truthy = true) :
    loadRest env m
      = { m with jobs := parseCSV env.now env.manualCSVData, isLoading := false,
                 used := m.used ++ [Source.primary, Source.secondary, Source.manual] } := by
  simp [loadRest, fetchFromGoogleSheets_declined env m h1, fetchFromCorsProxy_declined env _ h2, h3]

theorem loadRest_sample (env : Sources) (m : JobManager)
    (h1 : ∀ body, env.sheet ≠ .response true body)
    (h2 : ∀ contents, env.proxy ≠ .response true (some contents))
    (h3 : env.manualCSVData.truthy = false) :
    loadRest env m
      = { m with jobs := sampleJobs env.now env.dayAgo, isLoading := false,
                 used := m.used ++ [Source.primary, Source.secondary, Source.sample] } := by
  simp [loadRest, fetchFromGoogleSheets_declined env m h1, fetchFromCorsProxy_declined env _ h2, h3,
    loadSampleJobs]

/-- Claim C11.  When neither remote source commits (each fails or answers without
success) and no local fallback text is present, a run of `loadJobsFromCSV` ends with
the store holding the built-in sample set: two jobs with ids 1 and 2 and the two
fixed titles, the same up to `datePosted` whatever the clock and the store before
were; the three sources before it were passed over in order. -/
theorem C11_all_sources_unavailable (env : Sources) (m : JobManager)
    (hidle : m.isLoading = false)
    (hsheet : ∀ body, env.sheet ≠ .response true body)
    (hproxy : ∀ contents, env.proxy ≠ .response true (some contents))
    (hmanual : env.manualCSVData.truthy = false) :
    (loadJobsFromCSV env m).jobs = sampleJobs env.now env.dayAgo ∧
      (loadJobsFromCSV env m).jobs.map Job.id = [1, 2] ∧
      (loadJobsFromCSV env m).jobs.map Job.title
        = ["Senior Software Developer".data, "Digital Marketing Specialist".data] ∧
      (loadJobsFromCSV env m).jobs.map Job.withoutDate = sampleJobs [] [] ∧
      (loadJobsFromCSV env m).used
        = m.used ++ [Source.primary, Source.secondary, Source.sample] ∧
      (loadJobsFromCSV env m).isLoading = false := by
  rw [loadJobsFromCSV_idle env m hidle, loadRest_sample env _ hsheet hproxy hmanual]
  refine ⟨rfl, rfl, rfl, rfl, rfl, rfl⟩

/-- Claim C12, as amended.  A remote source commits and stops the pipeline whenever
it answers with a success status (the proxy: and an envelope that can be read),
whatever the number of jobs its payload parses to.  After a successful primary answer
the store holds the jobs parsed from the body, be they none, and the secondary source
is not attempted; after a declined primary and a successful proxy answer the store
holds the jobs parsed from the envelope's payload, none when the payload is missing,
and neither the local text nor the sample set is used.  The pipeline moves past a
remote source only when that source fails or answers without success. -/
theorem C12_commit_on_success (env : Sources) (m : JobManager)
    (hidle : m.isLoading = false) :
    (∀ body, env.sheet = .response true body →
      (loadJobsFromCSV env m).jobs = parseCSV env.now (.str body) ∧
      (loadJobsFromCSV env m).used = m.used ++ [Source.primary]) ∧
    ((∀ body, env.sheet ≠ .response true body) →
      ∀ contents, env.proxy = .response true (some contents) →
        (loadJobsFromCSV env m).jobs = parseCSV env.now contents ∧
        (loadJobsFromCSV env m).used = m.used ++ [Source.primary, Source.secondary]) ∧
    ((∀ body, env.sheet ≠ .response true body) →
      (∀ contents, env.proxy ≠ .response true (some contents)) →
        (loadJobsFromCSV env m).used
          = m.used ++ [Source.primary, Source.secondary,
              if env.manualCSVData.truthy then Source.manual else Source.sample]) := by
  rw [loadJobsFromCSV_idle env m hidle]
  refine ⟨?_, ?_, ?_⟩
  · intro body h
    rw [loadRest_primary env _ body h]
    exact ⟨rfl, rfl⟩
  · intro h1 contents h2
    rw [loadRest_secondary env _ contents h1 h2]
    exact ⟨rfl, rfl⟩
  · intro h1 h2
    cases h3 : env.manualCSVData.truthy with
    | true => rw [loadRest_manual env _ h1 h2 h3]; rfl
    | false => rw [loadRest_sample env _ h1 h2 h3]; rfl

/-- Claim C12 as stated fails.  A primary answer with success and an empty body
commits: the run ends with an empty store and the secondary source is never
attempted.  A proxy answer with success and an envelope without payload commits too:
the store is empty and neither the local text nor the sample set is used. -/
theorem C12_empty_payload_commits :
    parseCSV "2024-08-14".data (.str []) = [] ∧
    loadJobsFromCSV
        { sheet := .response true [], proxy := .response true (some (.str "Title\nA".data)),
          manualCSVData := .str "Title\nB".data, now := "2024-08-14".data,
          dayAgo := "2024-08-13".data }
        { jobs := [], isLoading := false, used := [] }
      = { jobs := [], isLoading := false, used := [Source.primary] } ∧
    parseCSV "2024-08-14".data .undefined = [] ∧
    loadJobsFromCSV
        { sheet := .failed, proxy := .response true (some .undefined),
          manualCSVData := .str "Title\nB".data, now := "2024-08-14".data,
          dayAgo := "2024-08-13".data }
        { jobs := [], isLoading := false, used := [] }
      = { jobs := [], isLoading := false, used := [Source.primary, Source.secondary] } := by
  refine ⟨rfl, ?_, rfl, ?_⟩ <;> decide

/-- Claim C13, as amended.  When a run of `loadJobsFromCSV` completes the store is
non-empty unless the source that committed, a remote source answering with success or
a local fallback text, yielded no job, in which case the store is left empty.  A run
that reaches the built-in sample set leaves the store non-empty, and so does the timer
of `init` when it finds the store empty after the run. -/
theorem C13_store_after_load (env : Sources) (m : JobManager)
    (hidle : m.isLoading = false) :
    ((loadJobsFromCSV env m).jobs = [] ↔
      ((∃ body, env.sheet = .response true body ∧ parseCSV env.now (.str body) = []) ∨
       ((∀ body, env.sheet ≠ .response true body) ∧
         ∃ contents, env.proxy = .response true (some contents) ∧
           parseCSV env.now contents = []) ∨
       ((∀ body, env.sheet ≠ .response true body) ∧
         (∀ contents, env.proxy ≠ .response true (some contents)) ∧
         env.manualCSVData.truthy = true ∧ parseCSV env.now env.manualCSVData = []))) ∧
    ((loadJobsFromCSV env m).used = m.used ++ [Source.primary, Source.secondary, Source.sample] →
      (loadJobsFromCSV env m).jobs ≠ []) ∧
    (watchdog env (loadJobsFromCSV env m)).jobs ≠ [] := by
  rw [loadJobsFromCSV_idle env m hidle]
  by_cases h1 : ∃ body, env.sheet = .response true body
  · obtain ⟨body, h1⟩ := h1
    rw [loadRest_primary env _ body h1]
    refine ⟨?_, ?_, ?_⟩
    · constructor
      · intro h
        exact Or.inl ⟨body, h1, h⟩
      · intro h
        rcases h with ⟨b, hb, hp⟩ | ⟨hn, _⟩ | ⟨hn, _⟩
        · rw [h1] at hb
          cases hb
          exact hp
        · exact absurd h1 (hn body)
        · exact absurd h1 (hn body)
    · intro h; simp [loadStart] at h
    · exact watchdog_jobs_ne_nil _ _
  · have h1 : ∀ body, env.sheet ≠ .response true body := fun b hb => h1 ⟨b, hb⟩
    by_cases h2 : ∃ contents, env.proxy = .response true (some contents)
    · obtain ⟨contents, h2⟩ := h2
      rw [loadRest_secondary env _ contents h1 h2]
      refine ⟨?_, ?_, ?_⟩
      · constructor
        · intro h
          exact Or.inr (Or.inl ⟨h1, contents, h2, h⟩)
        · intro h
          rcases h with ⟨b, hb, _⟩ | ⟨_, c, hc, hp⟩ | ⟨_, hn, _⟩
          · exact absurd hb (h1 b)
          · rw [h2] at hc
            cases hc
            exact hp
          · exact absurd h2 (hn contents)
      · intro h; simp [loadStart] at h
      · exact watchdog_jobs_ne_nil _ _
    · have h2 : ∀ contents, env.proxy ≠ .response true (some contents) :=
        fun c hc => h2 ⟨c, hc⟩
      cases h3 : env.manualCSVData.truthy with
      | true =>
        rw [loadRest_manual env _ h1 h2 h3]
        refine ⟨?_, ?_, ?_⟩
        · constructor
          · intro h
            exact Or.inr (Or.inr ⟨h1, h2, rfl, h⟩)
          · intro h
            rcases h with ⟨b, hb, _⟩ | ⟨_, c, hc, _⟩ | ⟨_, _, _, hp⟩
            · exact absurd hb (h1 b)
            · exact absurd hc (h2 c)
            · exact hp
        · intro h; simp [loadStart] at h
        · exact watchdog_jobs_ne_nil _ _
      | false =>
        rw [loadRest_sample env _ h1 h2 h3]
        refine ⟨?_, ?_, ?_⟩
        · constructor
          · intro h
            exact absurd h (sampleJobs_ne_nil _ _)
          · intro h
            rcases h with ⟨b, hb, _⟩ | ⟨_, c, hc, _⟩ | ⟨_, _, ht, _⟩
            · exact absurd hb (h1 b)
            · exact absurd hc (h2 c)
            · simp at ht
        · intro _
          exact sampleJobs_ne_nil _ _
        · exact watchdog_jobs_ne_nil _ _

/-- Claim C13 as stated fails: when the primary source answers with success and a
body that holds a header only, the run completes with an empty store. -/
theorem C13_header_only_body_leaves_store_empty :
    (loadJobsFromCSV
        { sheet := .response true "Title,Location".data, proxy := .failed,
          manualCSVData := .undefined, now := "2024-08-14".data, dayAgo := "2024-08-13".data }
        { jobs := sampleJobs [] [], isLoading := false, used := [] }).jobs = [] := by
  decide

/-- Claim C14.  While a load is in flight, that is, with `isLoading` raised, a call of
`loadJobsFromCSV` or of `refreshJobs` returns the manager as it is: store, flag and
record of sources unchanged.  A load that has started has the flag raised, so a second
call in immediate succession does nothing, and the two calls together do what the one
call does. -/
theorem C14_no_overlapping_loads (env env2 : Sources) (m : JobManager) :
    (m.isLoading = true → loadJobsFromCSV env m = m ∧ refreshJobs env m = m) ∧
    (loadStart m).isLoading = true ∧
    loadJobsFromCSV env2 (loadStart m) = loadStart m ∧
    refreshJobs env2 (loadStart m) = loadStart m ∧
    (m.isLoading = false →
      loadRest env (loadJobsFromCSV env2 (loadStart m)) = loadJobsFromCSV env m) := by
  refine ⟨?_, rfl, ?_, ?_, ?_⟩
  · intro h
    simp [loadJobsFromCSV, refreshJobs, h]
  · simp [loadJobsFromCSV, loadStart]
  · simp [refreshJobs, loadStart]
  · intro h
    rw [loadJobsFromCSV_idle env m h]
    simp [loadJobsFromCSV, loadStart]

/-! ## Lookup by id -/

theorem find_by_id (jobs : List Job) (first : Nat)
    (h : jobs.map Job.id = List.range' first jobs.length) (k : Int) :
    jobs.find? (fun job => decide ((job.id : Int) = k))
      = if (first : Int) ≤ k ∧ k < first + jobs.length then jobs.get? (k - first).toNat
        else none := by
  induction jobs generalizing first with
  | nil => simp
  | cons j js ih =>
    simp only [List.map_cons, List.length_cons, List.range'_succ, List.cons.injEq] at h
    obtain ⟨hj, hjs⟩ := h
    have ih2 := ih (first + 1) hjs
    by_cases hk : (j.id : Int) = k
    · rw [List.find?_cons_of_pos _ (by simpa using hk)]
      have hcond : (first : Int) ≤ k ∧ k < first + (js.length + 1 : Nat) := by
        constructor <;> omega
      have hidx : (k - first).toNat = 0 := by omega
      simp only [List.length_cons]
      rw [if_pos hcond, hidx]
      rfl
    · rw [List.find?_cons_of_neg _ (by simpa using hk), ih2]
      simp only [List.length_cons]
      by_cases hc : ((first + 1 : Nat) : Int) ≤ k ∧ k < (first + 1 : Nat) + js.length
      · have hcond : (first : Int) ≤ k ∧ k < first + (js.length + 1 : Nat) := by
          constructor <;> omega
        have hidx : (k - first).toNat = (k - (first + 1 : Nat)).toNat + 1 := by omega
        rw [if_pos hc, if_pos hcond, hidx]
        rfl
      · have hcond : ¬ ((first : Int) ≤ k ∧ k < first + (js.length + 1 : Nat)) := by
          intro hh
          apply hc
          constructor <;> omega
        rw [if_neg hc, if_neg hcond]

theorem parseInt_small {k : Int} (hk : k.natAbs < 10 ^ 21) : parseInt k = k := by
  unfold parseInt
  rw [if_pos hk]

/-- Claim C15, as amended.  For every input of `parseCSV` and every integer k of
magnitude below 10^21, `getJob(k)` on a store holding the n parsed jobs returns the
k-th job of the store, whose id is k, when 1 <= k <= n, and `undefined` for every
other k. -/
theorem C15_getJob_by_id (now : JSString) (csvText : JSValue) (isLoading : Bool)
    (used : List Source) (k : Int) (hk : k.natAbs < 10 ^ 21) :
    getJob { jobs := parseCSV now csvText, isLoading := isLoading, used := used } k
        = (if 1 ≤ k ∧ k ≤ (parseCSV now csvText).length
            then (parseCSV now csvText).get? (k - 1).toNat else none) ∧
      ∀ j, getJob { jobs := parseCSV now csvText, isLoading := isLoading, used := used } k
          = some j → (j.id : Int) = k := by
  have hfind := find_by_id (parseCSV now csvText) 1 (ids_parseCSV now csvText) k
  have hget : getJob { jobs := parseCSV now csvText, isLoading := isLoading, used := used } k
      = (parseCSV now csvText).find? (fun job => decide ((job.id : Int) = k)) := by
    simp [getJob, parseInt_small hk]
  refine ⟨?_, ?_⟩
  · rw [hget, hfind]
    by_cases hc : 1 ≤ k ∧ k ≤ (parseCSV now csvText).length
    · have hc2 : ((1 : Nat) : Int) ≤ k ∧ k < (1 : Nat) + (parseCSV now csvText).length := by
        constructor <;> omega
      rw [if_pos hc, if_pos hc2]
      rfl
    · have hc2 : ¬ (((1 : Nat) : Int) ≤ k ∧ k < (1 : Nat) + (parseCSV now csvText).length) := by
        intro hh
        apply hc
        constructor <;> omega
      rw [if_neg hc, if_neg hc2]
  · intro j hj
    rw [hget] at hj
    simpa using List.find?_some hj

/-- Claim C15 as stated fails at k = 10^21: the number is written `1e+21`, of which
`parseInt` reads 1, so `getJob` returns the job with id 1 although k is not between 1
and the length of the store. -/
theorem C15_getJob_large_number :
    parseInt (10 ^ 21) = 1 ∧
    (parseCSV [] (.str "Title\nA".data)).length = 1 ∧
    getJob { jobs := parseCSV [] (.str "Title\nA".data), isLoading := false, used := [] } (10 ^ 21)
      = some { id := 1, title := "A".data, location := "Location not specified".data,
               type := "Full-time".data, salary := "Salary not specified".data,
               description := "No description available".data, requirements := [],
               datePosted := [] } := by
  refine ⟨by decide, by decide, by decide⟩

/-! ## Search -/

theorem infix_iff_split (t s : List Char) :
    t <:+: s ↔ ∃ before after, s = before ++ t ++ after := by
  constructor
  · rintro ⟨a, b, h⟩
    exact ⟨a, b, h.symm⟩
  · rintro ⟨a, b, h⟩
    exact ⟨a, b, h.symm⟩

theorem includes_iff (s searchString : JSString) :
    includes s searchString = true ↔ searchString <:+: s := by
  induction s with
  | nil =>
    simp only [includes, List.infix_nil, List.isEmpty_iff]
  | cons c cs ih =>
    simp only [includes, Bool.or_eq_true, ih, List.isPrefixOf_iff_prefix, List.infix_cons_iff]

/-- Claim C16.  Whatever the lower-casing function is, `filterJobs` leaves the manager,
and so the held sequence, as it is.  For a non-empty search term the list handed to
rendering is the store filtered, in store order, by the condition that the lower-cased
term is a substring of the lower-cased title, location, description or type: a job is
in the list exactly when it is in the store and one of these four texts, lower-cased,
is some text, then the lower-cased term, then some text; salary and requirements play
no part.  For the empty term the list rendered is the whole store. -/
theorem C16_filter_by_search_term (lowerCase : JSString → JSString) (m : JobManager)
    (searchTerm : JSString) :
    (filterJobs lowerCase m searchTerm).1 = m ∧
    (searchTerm ≠ [] →
      (filterJobs lowerCase m searchTerm).2
          = m.jobs.filter (fun job => decide
              (lowerCase searchTerm <:+: lowerCase job.title ∨
               lowerCase searchTerm <:+: lowerCase job.location ∨
               lowerCase searchTerm <:+: lowerCase job.description ∨
               lowerCase searchTerm <:+: lowerCase job.type)) ∧
        List.Sublist (filterJobs lowerCase m searchTerm).2 m.jobs ∧
        ∀ job, job ∈ (filterJobs lowerCase m searchTerm).2 ↔
          job ∈ m.jobs ∧
            ∃ field ∈ [job.title, job.location, job.description, job.type],
              ∃ before after, lowerCase field = before ++ lowerCase searchTerm ++ after) ∧
    (searchTerm = [] → (filterJobs lowerCase m searchTerm).2 = m.jobs) := by
  refine ⟨?_, ?_, ?_⟩
  · unfold filterJobs
    split <;> rfl
  · intro hne
    have hemp : searchTerm.isEmpty = false := by
      cases searchTerm with
      | nil => exact absurd rfl hne
      | cons _ _ => rfl
    have heq : (filterJobs lowerCase m searchTerm).2
        = m.jobs.filter (fun job => decide
            (lowerCase searchTerm <:+: lowerCase job.title ∨
             lowerCase searchTerm <:+: lowerCase job.location ∨
             lowerCase searchTerm <:+: lowerCase job.description ∨
             lowerCase searchTerm <:+: lowerCase job.type)) := by
      simp only [filterJobs, hemp, renderedJobs, Bool.false_eq_true, if_false]
      apply List.filter_congr
      intro job _
      rw [Bool.eq_iff_iff]
      simp only [Bool.or_eq_true, includes_iff, decide_eq_true_eq, or_assoc]
    refine ⟨heq, ?_, ?_⟩
    · rw [heq]
      exact List.filter_sublist _
    · intro job
      rw [heq, List.mem_filter, decide_eq_true_eq]
      simp only [List.mem_cons, List.mem_singleton, List.not_mem_nil, or_false,
        exists_eq_or_imp, exists_eq_left, infix_iff_split]
  · intro h
    subst h
    rfl

/-! ## The share link -/

theorem split_append_sep_pieces (sep : Char) (a b : List Char) :
    split sep (a ++ sep :: b) = split sep a ++ split sep b := by
  induction a with
  | nil => simp [split]
  | cons c cs ih =>
    by_cases hc : c = sep
    · subst hc
      rw [List.cons_append, split_cons_sep, split_cons_sep, ih]
      rfl
    · rw [List.cons_append, split_cons_ne _ hc, split_cons_ne _ hc, ih]
      cases hs : split sep cs with
      | nil => exact absurd hs (split_ne_nil sep cs)
      | cons p ps => simp

theorem getLastD_split_append_sep (sep : Char) (a b : List Char) :
    (split sep (a ++ sep :: b)).getLastD [] = (split sep b).getLastD [] := by
  rw [split_append_sep_pieces]
  cases hs : split sep b with
  | nil => exact absurd hs (split_ne_nil sep b)
  | cons p ps =>
    rw [List.getLastD_eq_getLast?, List.getLastD_eq_getLast?, List.getLast?_append_of_ne_nil _
      (List.cons_ne_nil p ps)]

theorem includes_shareLinkOf (token filename : JSString) :
    includes (shareLinkOf token filename) "1drv.ms".data = true := by
  rw [includes_iff]
  exact ⟨"https://".data, "/x/".data ++ token ++ "/".data ++ filename, rfl⟩

/-- Claim C19 fails on the code.  For a share link of the documented form
`https://1drv.ms/x/<token>/<filename>` the method `convertShareLink` builds the
download link from the last segment of the link, which is the file name, not from
the share token: for `https://1drv.ms/x/s!ABC123/filename.csv` it returns
`https://api.onedrive.com/v1.0/shares/filename.csv/root/content`, which is not the
direct download link of the token `s!ABC123`. -/
theorem C19_share_link_uses_last_segment :
    (∀ token filename : JSString,
      convertShareLink (shareLinkOf token filename)
        = directDownloadLink ((split '/' filename).getLastD [])) ∧
    convertShareLink "https://1drv.ms/x/s!ABC123/filename.csv".data
      = "https://api.onedrive.com/v1.0/shares/filename.csv/root/content".data ∧
    convertShareLink "https://1drv.ms/x/s!ABC123/filename.csv".data
      ≠ directDownloadLink "s!ABC123".data := by
  refine ⟨?_, by decide, by decide⟩
  intro token filename
  unfold convertShareLink
  rw [if_pos (includes_shareLinkOf token filename)]
  have h : shareLinkOf token filename
      = ("https://1drv.ms/x/".data ++ token) ++ '/' :: filename := by
    simp [shareLinkOf]
  simp only [h, getLastD_split_append_sep, directDownloadLink]

/-! ## The de-duplication key -/

/-- Claim C20 fails on the code.  The key `title-location-type` does not tell
(title 'A-B', location 'C') from (title 'A', location 'B-C'): the two keys are the same
string, so of two such rows the second is rejected as a duplicate although no accepted
row has its title and location.  Equal titles, locations and types do give equal
keys. -/
theorem C20_key_collision (now : JSString) :
    jobKey { id := 1, title := "A-B".data, location := "C".data, type := "Full-time".data,
             salary := [], description := [], requirements := [], datePosted := [] }
      = jobKey { id := 2, title := "A".data, location := "B-C".data, type := "Full-time".data,
                 salary := [], description := [], requirements := [], datePosted := [] } ∧
    parseCSV now (.str "Title,Location,Type\nA-B,C,Full-time\nA,B-C,Full-time".data)
      = [{ id := 1, title := "A-B".data, location := "C".data, type := "Full-time".data,
           salary := "Salary not specified".data,
           description := "No description available".data, requirements := [],
           datePosted := now }] ∧
    parseCSV now (.str "Title,Location,Type\nA,B-C,Full-time".data)
      = [{ id := 1, title := "A".data, location := "B-C".data, type := "Full-time".data,
           salary := "Salary not specified".data,
           description := "No description available".data, requirements := [],
           datePosted := now }] ∧
    (∀ a b : Job, (a.title = b.title ∧ a.location = b.location ∧ a.type = b.type) →
      jobKey a = jobKey b) := by
  refine ⟨by decide, by rfl, by rfl, ?_⟩
  intro a b h
  exact jobKey_congr h.1 h.2.1 h.2.2

/-! ## Requirements -/

theorem split_eq_splitOn (sep : Char) (s : List Char) : split sep s = s.splitOn sep := by
  induction s with
  | nil => simp [split]
  | cons c cs ih =>
    unfold List.splitOn at ih ⊢
    rw [List.splitOnP_cons]
    by_cases hc : c = sep
    · subst hc
      rw [split_cons_sep, ih]
      simp
    · rw [split_cons_ne _ hc, ih]
      have hb : (c == sep) = false := by simpa using hc
      rw [hb]
      cases hs : List.splitOnP (fun x => x == sep) cs with
      | nil => exact absurd hs (List.splitOnP_ne_nil _ _)
      | cons q qs => simp [List.modifyHead]

theorem not_mem_of_mem_split {sep : Char} {s p : List Char} (hp : p ∈ split sep s) :
    sep ∉ p := by
  induction s generalizing p with
  | nil =>
    simp only [split, List.mem_singleton] at hp
    subst hp
    simp
  | cons d ds ih =>
    by_cases hd : d = sep
    · subst hd
      rw [split_cons_sep] at hp
      rcases List.mem_cons.1 hp with h | h
      · subst h; simp
      · exact ih h
    · rw [split_cons_ne _ hd] at hp
      cases hs : split sep ds with
      | nil => exact absurd hs (split_ne_nil sep ds)
      | cons q qs =>
        rw [hs] at hp
        simp only [List.headD_cons, List.tail_cons, List.mem_cons] at hp
        rcases hp with h | h
        · subst h
          intro hm
          rcases List.mem_cons.1 hm with h1 | h1
          · exact hd h1.symm
          · exact ih (by rw [hs]; simp) h1
        · exact ih (by rw [hs]; simp [h])

theorem mem_trim {s : List Char} {c : Char} (h : c ∈ trim s) : c ∈ s := by
  apply (List.dropWhile_suffix isWhiteSpace).subset
  exact (List.rdropWhile_prefix isWhiteSpace _).subset h

theorem parseRequirements_some {v : JSString} (hv : v ≠ []) :
    parseRequirements (some v)
      = ((v.splitOn ';').map trim).filter (fun r => decide (r ≠ [])) := by
  cases v with
  | nil => exact absurd rfl hv
  | cons c cs =>
    simp only [parseRequirements, List.isEmpty_cons, Bool.false_eq_true, if_false,
      split_eq_splitOn]
    apply List.filter_congr
    intro r _
    cases r <;> simp

theorem parseRequirements_mem (cv : Option JSString) :
    ∀ r ∈ parseRequirements cv, r ≠ [] ∧ ';' ∉ r ∧
      (∀ c, r.head? = some c → isWhiteSpace c = false) ∧
      (∀ c, r.getLast? = some c → isWhiteSpace c = false) := by
  intro r hr
  cases cv with
  | none => simp [parseRequirements] at hr
  | some v =>
    by_cases hv : v.isEmpty = true
    · simp [parseRequirements, hv] at hr
    · simp only [parseRequirements, hv, if_false, Bool.false_eq_true] at hr
      rw [List.mem_filter] at hr
      obtain ⟨hmem, hne⟩ := hr
      obtain ⟨p, hp, rfl⟩ := List.mem_map.1 hmem
      refine ⟨?_, ?_, head_trim_not_ws p, getLast_trim_not_ws p⟩
      · intro e
        rw [e] at hne
        simp at hne
      · intro hm
        exact not_mem_of_mem_split hp (mem_trim hm)

theorem parseRequirements_eq (v : JSString) :
    parseRequirements (some v)
      = ((v.splitOn ';').map trim).filter (fun r => decide (r ≠ [])) := by
  by_cases hv : v = []
  · subst hv
    decide
  · exact parseRequirements_some hv

/-- The job formatted from a row with as many values as headers and a supplied title
has the fields of that row. -/
theorem rowFields_formatJob (now : JSString) (headers values : List JSString) (count : Nat)
    (hlen : values.length = headers.length)
    (h2 : (formatJob now (buildRowObject headers values) count).title ≠ untitledPosition) :
    RowFields headers values (formatJob now (buildRowObject headers values) count) := by
  have e : (formatJob now (buildRowObject headers values) count).title
      = orDefault (columnValue headers values "title".data) untitledPosition := by
    simp only [formatJob, getProp_buildRowObject]
  have htitle : columnValue headers values "title".data
        = some (formatJob now (buildRowObject headers values) count).title ∧
      (formatJob now (buildRowObject headers values) count).title ≠ [] := by
    cases hcv : columnValue headers values "title".data with
    | none => rw [hcv] at e; exact absurd e h2
    | some v =>
      rw [hcv] at e
      cases v with
      | nil => exact absurd e h2
      | cons c cs =>
        have e2 : (formatJob now (buildRowObject headers values) count).title = c :: cs := e
        rw [e2]
        exact ⟨rfl, List.cons_ne_nil _ _⟩
  refine ⟨hlen, htitle.2, htitle.1, ?_, ?_, ?_, ?_, ?_⟩
  · have e3 : (formatJob now (buildRowObject headers values) count).location
        = orDefault (columnValue headers values "location".data) locationNotSpecified := by
      simp only [formatJob, getProp_buildRowObject]
    rw [e3]
    exact fieldFrom_orDefault _ _
  · have e3 : (formatJob now (buildRowObject headers values) count).type
        = orDefault (columnValue headers values "type".data) fullTime := by
      simp only [formatJob, getProp_buildRowObject]
    rw [e3]
    exact fieldFrom_orDefault _ _
  · have e3 : (formatJob now (buildRowObject headers values) count).salary
        = orDefault (columnValue headers values "salary".data) salaryNotSpecified := by
      simp only [formatJob, getProp_buildRowObject]
    rw [e3]
    exact fieldFrom_orDefault _ _
  · have e3 : (formatJob now (buildRowObject headers values) count).description
        = orDefault (columnValue headers values "description".data) noDescription := by
      simp only [formatJob, getProp_buildRowObject]
    rw [e3]
    exact fieldFrom_orDefault _ _
  · intro hreq
    have e3 : (formatJob now (buildRowObject headers values) count).requirements
        = parseRequirements (columnValue headers values "requirements".data) := by
      simp only [formatJob, getProp_buildRowObject]
    rw [e3]
    rcases hreq with h | h <;> rw [h] <;> rfl

/-- Claim C17.  Every job `parseCSV` returns is the job formatted from one of the data
lines, whose Title, Location and other values are the job's fields, and the job's
requirements are read from the Requirements value v of that same line: they are the
pieces of v split at each semicolon, each trimmed, the empty ones dropped, in their
order, and the empty list when the line has no Requirements value.  Every requirement
of a job is non-empty, holds no semicolon and neither begins nor ends with white
space.  The value of the first row of the bundled data gives three requirements, the
comma inside the second one kept. -/
theorem C17_requirements_split (now : JSString) :
    (∀ text : List Char, ∀ j ∈ parseCSV now (.str text),
      ∃ line ∈ (split '\n' (trim text)).drop 1,
        j = formatJob now
            (buildRowObject (parseHeaders ((split '\n' (trim text)).headD []))
              (parseCSVLine (.str line))) (j.id - 1) ∧
        RowFields (parseHeaders ((split '\n' (trim text)).headD []))
          (parseCSVLine (.str line)) j ∧
        (∀ v, columnValue (parseHeaders ((split '\n' (trim text)).headD []))
            (parseCSVLine (.str line)) "requirements".data = some v →
          j.requirements = ((v.splitOn ';').map trim).filter (fun r => decide (r ≠ []))) ∧
        (columnValue (parseHeaders ((split '\n' (trim text)).headD []))
            (parseCSVLine (.str line)) "requirements".data = none → j.requirements = []) ∧
        (∀ r ∈ j.requirements, r ≠ [] ∧ ';' ∉ r ∧
          (∀ c, r.head? = some c → isWhiteSpace c = false) ∧
          (∀ c, r.getLast? = some c → isWhiteSpace c = false))) ∧
    parseRequirements (some
      "5+ years web development experience;JavaScript, React, Node.js;Bachelor's degree in CS or related field".data)
      = ["5+ years web development experience".data, "JavaScript, React, Node.js".data,
         "Bachelor's degree in CS or related field".data] := by
  refine ⟨?_, by decide⟩
  intro text j hj
  have htitle : j.title ≠ [] ∧ j.title ≠ untitledPosition := by
    rcases parseCSV_eq now (.str text) with h | ⟨text2, _, h⟩
    · rw [h] at hj; simp at hj
    · rw [h] at hj
      exact titles_processRows now _ ParseState.init _ (by simp [ParseState.init]) j hj
  rcases parseCSV_eq now (.str text) with h | ⟨text2, ht, h⟩
  · rw [h] at hj; simp at hj
  · cases ht
    rw [h] at hj
    rcases origin_processRows now _ ParseState.init _ j hj with h0 | ⟨line, hl, hlen, hjob⟩
    · simp [ParseState.init] at h0
    · have e : j.requirements = parseRequirements (columnValue
          (parseHeaders ((split '\n' (trim text)).headD []))
          (parseCSVLine (.str line)) "requirements".data) := by
        conv_lhs => rw [hjob]
        simp only [formatJob, getProp_buildRowObject]
      have hrf : RowFields (parseHeaders ((split '\n' (trim text)).headD []))
          (parseCSVLine (.str line)) j := by
        rw [hjob]
        apply rowFields_formatJob now _ _ _ hlen
        rw [← hjob]
        exact htitle.2
      refine ⟨line, hl, hjob, hrf, ?_, ?_, ?_⟩
      · intro v hv
        rw [e, hv, parseRequirements_eq]
      · intro hv
        rw [e, hv]
        rfl
      · rw [e]
        exact parseRequirements_mem _

/-! ## Letter case of the header -/

theorem isAsciiLetter_toNat {c : Char} (h : isAsciiLetter c = true) :
    (65 ≤ c.toNat ∧ c.toNat ≤ 90) ∨ (97 ≤ c.toNat ∧ c.toNat ≤ 122) := by
  simpa [isAsciiLetter] using h

theorem char_eq_of_toNat_eq {a b : Char} (h : a.toNat = b.toNat) : a = b := by
  rw [← Char.ofNat_toNat a, ← Char.ofNat_toNat b, h]

theorem isWhiteSpace_of_letter {c : Char} (h : isAsciiLetter c = true) :
    isWhiteSpace c = false := by
  have hc := isAsciiLetter_toNat h
  cases hw : isWhiteSpace c with
  | false => rfl
  | true =>
    exfalso
    simp [isWhiteSpace] at hw
    omega

theorem CaseVariant.isWhiteSpace_eq {a b : Char} (h : CaseVariant a b) :
    isWhiteSpace a = isWhiteSpace b := by
  rcases h with h | ⟨ha, hb, _⟩
  · rw [h]
  · rw [isWhiteSpace_of_letter ha, isWhiteSpace_of_letter hb]

theorem CaseVariant.eq_iff {a b : Char} (h : CaseVariant a b) (c : Char)
    (hc : isAsciiLetter c = false) : a = c ↔ b = c := by
  rcases h with h | ⟨ha, hb, _⟩
  · rw [h]
  · constructor
    · intro e; rw [e, hc] at ha; exact absurd ha (by simp)
    · intro e; rw [e, hc] at hb; exact absurd hb (by simp)

theorem toLowerChar_upper {a b : Char} (ha : isAsciiLetter a = true)
    (hb : isAsciiLetter b = true) (h : a.toNat + 32 = b.toNat) :
    toLowerChar a = toLowerChar b := by
  have h1 := isAsciiLetter_toNat ha
  have h2 := isAsciiLetter_toNat hb
  have ha2 : 'A'.toNat ≤ a.toNat ∧ a.toNat ≤ 'Z'.toNat := by
    simp only [Char.reduceToNat]; omega
  have hb2 : ¬ ('A'.toNat ≤ b.toNat ∧ b.toNat ≤ 'Z'.toNat) := by
    simp only [Char.reduceToNat]; omega
  have hb3 : ¬ b.toNat = 0x212A := by omega
  have hb4 : ¬ b.toNat = 0x0130 := by omega
  unfold toLowerChar
  rw [if_pos ha2, if_neg hb2, if_neg hb3, if_neg hb4, h, Char.ofNat_toNat]

theorem CaseVariant.toLowerChar_eq {a b : Char} (h : CaseVariant a b) :
    toLowerChar a = toLowerChar b := by
  rcases h with h | ⟨ha, hb, h | h⟩
  · rw [h]
  · exact toLowerChar_upper ha hb h
  · exact (toLowerChar_upper hb ha h).symm

theorem forall₂_dropWhile {p q : List Char} (h : List.Forall₂ CaseVariant p q) :
    List.Forall₂ CaseVariant (p.dropWhile isWhiteSpace) (q.dropWhile isWhiteSpace) := by
  induction h with
  | nil => exact List.Forall₂.nil
  | cons hab hrest ih =>
    rename_i a b as bs
    by_cases hw : isWhiteSpace a = true
    · have hw2 : isWhiteSpace b = true := by rw [← hab.isWhiteSpace_eq]; exact hw
      rw [List.dropWhile_cons_of_pos hw, List.dropWhile_cons_of_pos hw2]
      exact ih
    · have hw2 : ¬ isWhiteSpace b = true := by rw [← hab.isWhiteSpace_eq]; exact hw
      rw [List.dropWhile_cons_of_neg hw, List.dropWhile_cons_of_neg hw2]
      exact List.Forall₂.cons hab hrest

theorem forall₂_trim {p q : List Char} (h : List.Forall₂ CaseVariant p q) :
    List.Forall₂ CaseVariant (trim p) (trim q) := by
  unfold trim List.rdropWhile
  apply List.rel_reverse
  apply forall₂_dropWhile
  apply List.rel_reverse
  exact forall₂_dropWhile h

theorem forall₂_removeQuotes {p q : List Char} (h : List.Forall₂ CaseVariant p q) :
    List.Forall₂ CaseVariant (removeQuotes p) (removeQuotes q) := by
  unfold removeQuotes
  induction h with
  | nil => exact List.Forall₂.nil
  | cons hab hrest ih =>
    rename_i a b as bs
    have hiff := hab.eq_iff '"' (by decide)
    by_cases ha : a = '"'
    · have hb : b = '"' := hiff.1 ha
      subst ha
      subst hb
      simpa using ih
    · have hb : b ≠ '"' := fun e => ha (hiff.2 e)
      rw [List.filter_cons_of_pos (by simpa using ha), List.filter_cons_of_pos (by simpa using hb)]
      exact List.Forall₂.cons hab ih

theorem toLowerCase_congr {p q : List Char} (h : List.Forall₂ CaseVariant p q) :
    toLowerCase p = toLowerCase q := by
  unfold toLowerCase
  induction h with
  | nil => rfl
  | cons hab _ ih =>
    simp only [List.flatMap_cons, hab.toLowerChar_eq, ih]

theorem forall₂_split {p q : List Char} (h : List.Forall₂ CaseVariant p q) :
    List.Forall₂ (List.Forall₂ CaseVariant) (split ',' p) (split ',' q) := by
  induction h with
  | nil => exact List.Forall₂.cons List.Forall₂.nil List.Forall₂.nil
  | cons hab hrest ih =>
    rename_i a b as bs
    have hiff := hab.eq_iff ',' (by decide)
    by_cases ha : a = ','
    · have hb : b = ',' := hiff.1 ha
      subst ha
      subst hb
      rw [split_cons_sep, split_cons_sep]
      exact List.Forall₂.cons List.Forall₂.nil ih
    · have hb : b ≠ ',' := fun e => ha (hiff.2 e)
      rw [split_cons_ne _ ha, split_cons_ne _ hb]
      cases h1 : split ',' as with
      | nil => exact absurd h1 (split_ne_nil _ _)
      | cons x xs =>
        cases h2 : split ',' bs with
        | nil => exact absurd h2 (split_ne_nil _ _)
        | cons y ys =>
          rw [h1, h2] at ih
          cases ih with
          | cons hxy hrest2 =>
            exact List.Forall₂.cons (List.Forall₂.cons hab hxy) hrest2

theorem map_header_lower_congr {xs ys : List (List Char)}
    (h : List.Forall₂ (List.Forall₂ CaseVariant) xs ys) :
    xs.map (fun p => toLowerCase (removeQuotes (trim p)))
      = ys.map (fun p => toLowerCase (removeQuotes (trim p))) := by
  induction h with
  | nil => rfl
  | cons hxy _ ih =>
    simp only [List.map_cons]
    rw [toLowerCase_congr (forall₂_removeQuotes (forall₂_trim hxy)), ih]

theorem parseHeaders_lower_congr {p q : List Char} (h : List.Forall₂ CaseVariant p q) :
    (parseHeaders p).map toLowerCase = (parseHeaders q).map toLowerCase := by
  unfold parseHeaders
  simp only [List.map_map, Function.comp]
  exact map_header_lower_congr (forall₂_split h)

theorem buildRowObject_congr {hs hs2 : List JSString}
    (h : hs.map toLowerCase = hs2.map toLowerCase) (values : List JSString) :
    buildRowObject hs values = buildRowObject hs2 values := by
  rw [buildRowObject_eq, buildRowObject_eq]
  have e : ∀ l : List JSString, (l.zip values).map (fun hv => (toLowerCase hv.1, hv.2))
      = (l.map toLowerCase).zip values := by
    intro l
    rw [List.zip_map_left]
    rfl
  rw [e, e, h]

theorem processRows_congr (now : JSString) {hs hs2 : List JSString}
    (h : hs.map toLowerCase = hs2.map toLowerCase) (st : ParseState) (lines : List JSString) :
    processRows now hs st lines = processRows now hs2 st lines := by
  have hlen : hs.length = hs2.length := by
    have := congrArg List.length h
    simpa using this
  have hrow : processRow now hs = processRow now hs2 := by
    funext st line
    unfold processRow
    rw [hlen]
    simp only [buildRowObject_congr h]
  unfold processRows
  rw [hrow]

theorem forall₂_exists_not_ws {p q : List Char} (h : List.Forall₂ CaseVariant p q)
    (hp : ∃ c ∈ p, isWhiteSpace c = false) : ∃ c ∈ q, isWhiteSpace c = false := by
  induction h with
  | nil => simp at hp
  | cons hab hrest ih =>
    rename_i a b as bs
    obtain ⟨c, hc, hw⟩ := hp
    rcases List.mem_cons.1 hc with e | e
    · refine ⟨b, List.mem_cons_self _ _, ?_⟩
      rw [← hab.isWhiteSpace_eq, ← e]
      exact hw
    · obtain ⟨d, hd, hdw⟩ := ih ⟨c, e, hw⟩
      exact ⟨d, List.mem_cons_of_mem _ hd, hdw⟩

theorem forall₂_newline_not_mem {p q : List Char} (h : List.Forall₂ CaseVariant p q)
    (hp : '\n' ∉ p) : '\n' ∉ q := by
  induction h with
  | nil => simp
  | cons hab hrest ih =>
    rename_i a b as bs
    intro hm
    rcases List.mem_cons.1 hm with e | e
    · exact hp (by rw [(hab.eq_iff '\n' (by decide)).2 e.symm]; simp)
    · exact ih (fun m => hp (List.mem_cons_of_mem _ m)) e

/-- Claim C18.  Header names are matched without regard to letter case: changing the
case of any ASCII letters of the header line leaves the list `parseCSV` returns
unchanged. -/
theorem C18_header_case_insensitive (now : JSString) (lead header header2 : List Char)
    (rows : List (List Char))
    (hlead : ∀ c ∈ lead, isWhiteSpace c = true)
    (hhead : ∃ c ∈ header, isWhiteSpace c = false)
    (hnl : ∀ l ∈ header :: rows, '\n' ∉ l)
    (hcase : List.Forall₂ CaseVariant header header2) :
    parseCSV now (.str (lead ++ joinWith '\n' (header2 :: rows)))
      = parseCSV now (.str (lead ++ joinWith '\n' (header :: rows))) := by
  have hnl2 : ∀ l ∈ header2 :: rows, '\n' ∉ l := by
    intro l hl
    rcases List.mem_cons.1 hl with e | e
    · rw [e]; exact forall₂_newline_not_mem hcase (hnl header (by simp))
    · exact hnl l (List.mem_cons_of_mem _ e)
  rw [parseCSV_lines now lead header rows hlead hhead hnl,
    parseCSV_lines now lead header2 rows hlead (forall₂_exists_not_ws hcase hhead) hnl2,
    processRows_congr now (parseHeaders_lower_congr hcase)]

/-! ## The later claims at concrete inputs -/

/-- Claim C11 at a failed primary source, a proxy answering without success and no
local text, the store holding one job beforehand. -/
theorem C11_all_sources_unavailable_witness :
    (loadJobsFromCSV
        { sheet := .failed, proxy := .response false none, manualCSVData := .undefined,
          now := "2024-08-14".data, dayAgo := "2024-08-13".data }
        { jobs := parseCSV [] (.str "Title\nA".data), isLoading := false, used := [] }).jobs
      = sampleJobs "2024-08-14".data "2024-08-13".data ∧
    (loadJobsFromCSV
        { sheet := .failed, proxy := .response false none, manualCSVData := .undefined,
          now := "2024-08-14".data, dayAgo := "2024-08-13".data }
        { jobs := parseCSV [] (.str "Title\nA".data), isLoading := false, used := [] }).used
      = [Source.primary, Source.secondary, Source.sample] :=
  have h := C11_all_sources_unavailable
    { sheet := .failed, proxy := .response false none, manualCSVData := .undefined,
      now := "2024-08-14".data, dayAgo := "2024-08-13".data }
    { jobs := parseCSV [] (.str "Title\nA".data), isLoading := false, used := [] }
    rfl (fun _ h => by cases h) (fun _ h => by cases h) rfl
  ⟨h.1, h.2.2.2.2.1⟩

/-- Claim C12 at a primary answer with success and a header-only body. -/
theorem C12_commit_on_success_witness :
    (loadJobsFromCSV
        { sheet := .response true "Title".data, proxy := .failed, manualCSVData := .undefined,
          now := "2024-08-14".data, dayAgo := "2024-08-13".data }
        { jobs := [], isLoading := false, used := [] }).jobs
      = parseCSV "2024-08-14".data (.str "Title".data) ∧
    (loadJobsFromCSV
        { sheet := .response true "Title".data, proxy := .failed, manualCSVData := .undefined,
          now := "2024-08-14".data, dayAgo := "2024-08-13".data }
        { jobs := [], isLoading := false, used := [] }).used
      = [] ++ [Source.primary] :=
  (C12_commit_on_success
    { sheet := .response true "Title".data, proxy := .failed, manualCSVData := .undefined,
      now := "2024-08-14".data, dayAgo := "2024-08-13".data }
    { jobs := [], isLoading := false, used := [] } rfl).1 "Title".data rfl

/-- Claim C13 at a run in which every source before the sample set is passed over. -/
theorem C13_store_after_load_witness :
    (loadJobsFromCSV
        { sheet := .failed, proxy := .failed, manualCSVData := .undefined,
          now := "2024-08-14".data, dayAgo := "2024-08-13".data }
        { jobs := [], isLoading := false, used := [] }).jobs ≠ [] ∧
    (watchdog
        { sheet := .failed, proxy := .failed, manualCSVData := .undefined,
          now := "2024-08-14".data, dayAgo := "2024-08-13".data }
        (loadJobsFromCSV
          { sheet := .failed, proxy := .failed, manualCSVData := .undefined,
            now := "2024-08-14".data, dayAgo := "2024-08-13".data }
          { jobs := [], isLoading := false, used := [] })).jobs ≠ [] :=
  have h := C13_store_after_load
    { sheet := .failed, proxy := .failed, manualCSVData := .undefined,
      now := "2024-08-14".data, dayAgo := "2024-08-13".data }
    { jobs := [], isLoading := false, used := [] } rfl
  ⟨h.2.1 rfl, h.2.2⟩

/-- Claim C14 at a manager with a load in flight. -/
theorem C14_no_overlapping_loads_witness :
    loadJobsFromCSV
        { sheet := .response true "Title\nA".data, proxy := .failed,
          manualCSVData := .undefined, now := [], dayAgo := [] }
        { jobs := [], isLoading := true, used := [Source.primary] }
      = { jobs := [], isLoading := true, used := [Source.primary] } ∧
    refreshJobs
        { sheet := .response true "Title\nA".data, proxy := .failed,
          manualCSVData := .undefined, now := [], dayAgo := [] }
        { jobs := [], isLoading := true, used := [Source.primary] }
      = { jobs := [], isLoading := true, used := [Source.primary] } :=
  (C14_no_overlapping_loads
    { sheet := .response true "Title\nA".data, proxy := .failed,
      manualCSVData := .undefined, now := [], dayAgo := [] }
    { sheet := .failed, proxy := .failed, manualCSVData := .undefined, now := [], dayAgo := [] }
    { jobs := [], isLoading := true, used := [Source.primary] }).1 rfl

/-- Claim C15 at a store of two jobs and k = 2. -/
theorem C15_getJob_by_id_witness :
    getJob { jobs := parseCSV [] (.str "Title\nA\nB".data), isLoading := false, used := [] } 2
        = (if (1 : Int) ≤ 2 ∧ (2 : Int) ≤ (parseCSV [] (.str "Title\nA\nB".data)).length
            then (parseCSV [] (.str "Title\nA\nB".data)).get? ((2 : Int) - 1).toNat else none) ∧
      ∀ j : Job, getJob (JobManager.mk (parseCSV [] (.str "Title\nA\nB".data)) false []) 2
          = some j → (j.id : Int) = 2 :=
  C15_getJob_by_id [] (.str "Title\nA\nB".data) false [] 2 (by decide)

/-- Claim C16 at a store of two jobs, the first titled CAFÉ MANAGER, the second with
the term in its salary only, and the search term café: the first job alone is
rendered. -/
theorem C16_filter_by_search_term_witness :
    (filterJobs toLowerCaseLatin1
        { jobs := parseCSV [] (.str "Title,Salary\nCAFÉ MANAGER,1\nChef,café".data),
          isLoading := false, used := [] } "café".data).2
      = [{ id := 1, title := "CAFÉ MANAGER".data, location := "Location not specified".data,
           type := "Full-time".data, salary := "1".data,
           description := "No description available".data, requirements := [],
           datePosted := [] }] :=
  ((C16_filter_by_search_term toLowerCaseLatin1
    { jobs := parseCSV [] (.str "Title,Salary\nCAFÉ MANAGER,1\nChef,café".data),
      isLoading := false, used := [] } "café".data).2.1 (by decide)).1.trans (by decide)

/-- Claim C17 at a row whose Requirements value has an empty piece: the requirements of
its job are the two non-empty pieces of that value. -/
theorem C17_requirements_split_witness :
    ["SQL".data, "Python, R".data]
      = (("SQL; ;Python, R".data.splitOn ';').map trim).filter (fun r => decide (r ≠ [])) := by
  obtain ⟨line, hl, _, _, hreq, _, _⟩ := (C17_requirements_split []).1
    "Title,Requirements\nAnalyst,\"SQL; ;Python, R\"".data
    { id := 1, title := "Analyst".data, location := "Location not specified".data,
      type := "Full-time".data, salary := "Salary not specified".data,
      description := "No description available".data,
      requirements := ["SQL".data, "Python, R".data], datePosted := [] } (by decide)
  have hlines : (split '\n' (trim "Title,Requirements\nAnalyst,\"SQL; ;Python, R\"".data)).drop 1
      = ["Analyst,\"SQL; ;Python, R\"".data] := by decide
  rw [hlines, List.mem_singleton] at hl
  subst hl
  exact hreq "SQL; ;Python, R".data (by decide)

/-- Claim C18 at a header written in upper and in lower case. -/
theorem C18_header_case_insensitive_witness :
    parseCSV "2024-08-14".data
        (.str ([] ++ joinWith '\n' ("TITLE,dateposted".data :: ["A,2024-01-01".data])))
      = parseCSV "2024-08-14".data
        (.str ([] ++ joinWith '\n' ("Title,DatePosted".data :: ["A,2024-01-01".data]))) :=
  C18_header_case_insensitive "2024-08-14".data [] "Title,DatePosted".data
    "TITLE,dateposted".data ["A,2024-01-01".data] (by decide) (by decide) (by decide) (by decide)

/-! ## Line endings -/

theorem isWhiteSpace_return : isWhiteSpace '\r' = true := by decide

theorem joinWith_cons_cons (sep c : Char) (p : List Char) (ps : List (List Char)) :
    joinWith sep ((c :: p) :: ps) = c :: joinWith sep (p :: ps) := by
  rw [joinWith_cons, joinWith_cons]
  rfl

theorem joinWith_split (sep : Char) (s : List Char) : joinWith sep (split sep s) = s := by
  induction s with
  | nil => rfl
  | cons c cs ih =>
    cases hs : split sep cs with
    | nil => exact absurd hs (split_ne_nil sep cs)
    | cons p ps =>
      rw [hs] at ih
      by_cases hc : c = sep
      · subst hc
        rw [split_cons_sep, hs, joinWith, List.nil_append, ih]
      · rw [split_cons_ne _ hc, hs]
        simp only [List.headD_cons, List.tail_cons]
        rw [joinWith_cons_cons, ih]

theorem toCRLF_append (a b : List Char) : toCRLF (a ++ b) = toCRLF a ++ toCRLF b := by
  simp [toCRLF, List.flatMap_append]

theorem toCRLF_cons_newline (s : List Char) : toCRLF ('\n' :: s) = '\r' :: '\n' :: toCRLF s := by
  simp [toCRLF, List.flatMap_cons]

theorem toCRLF_of_not_mem {l : List Char} (h : '\n' ∉ l) : toCRLF l = l := by
  induction l with
  | nil => rfl
  | cons c cs ih =>
    have hc : c ≠ '\n' := fun e => h (by simp [e])
    have ih2 := ih (fun m => h (List.mem_cons_of_mem _ m))
    unfold toCRLF at ih2 ⊢
    rw [List.flatMap_cons, if_neg hc, ih2]
    rfl

theorem toCRLF_ws {w : List Char} (hw : ∀ c ∈ w, isWhiteSpace c = true) :
    ∀ c ∈ toCRLF w, isWhiteSpace c = true := by
  intro c hc
  unfold toCRLF at hc
  rw [List.mem_flatMap] at hc
  obtain ⟨d, hd, hcd⟩ := hc
  by_cases hn : d = '\n'
  · rw [if_pos hn] at hcd
    simp only [List.mem_cons, List.mem_singleton, List.not_mem_nil, or_false] at hcd
    rcases hcd with e | e
    · rw [e]; exact isWhiteSpace_return
    · rw [e]; exact isWhiteSpace_newline
  · rw [if_neg hn] at hcd
    simp only [List.mem_singleton] at hcd
    rw [hcd]
    exact hw d hd

theorem withCarriageReturns_ne_nil (l : List Char) (ls : List (List Char)) :
    withCarriageReturns (l :: ls) ≠ [] := by
  cases ls <;> simp [withCarriageReturns]

theorem toCRLF_joinWith (ls : List (List Char)) (h : ∀ l ∈ ls, '\n' ∉ l) :
    toCRLF (joinWith '\n' ls) = joinWith '\n' (withCarriageReturns ls) := by
  induction ls with
  | nil => rfl
  | cons l rest ih =>
    cases rest with
    | nil => simpa [joinWith, withCarriageReturns] using toCRLF_of_not_mem (h l (by simp))
    | cons m ms =>
      have ih2 := ih (fun x hx => h x (List.mem_cons_of_mem _ hx))
      rw [joinWith, toCRLF_append, toCRLF_cons_newline, toCRLF_of_not_mem (h l (by simp)), ih2,
        withCarriageReturns]
      cases hw : withCarriageReturns (m :: ms) with
      | nil => exact absurd hw (withCarriageReturns_ne_nil m ms)
      | cons x xs => simp [joinWith]

theorem withCarriageReturns_newline_free (ls : List (List Char)) (h : ∀ l ∈ ls, '\n' ∉ l) :
    ∀ x ∈ withCarriageReturns ls, '\n' ∉ x := by
  induction ls with
  | nil => simp [withCarriageReturns]
  | cons l rest ih =>
    cases rest with
    | nil => simpa [withCarriageReturns] using h
    | cons m ms =>
      intro x hx
      rw [withCarriageReturns] at hx
      rcases List.mem_cons.1 hx with e | e
      · rw [e]
        intro hm
        rcases List.mem_append.1 hm with h1 | h1
        · exact h l (by simp) h1
        · simp at h1
      · exact ih (fun y hy => h y (List.mem_cons_of_mem _ hy)) x e

theorem split_append_last {sep : Char} (h : List Char) {w : List Char} (hw : sep ∉ w) :
    ∃ ps p, split sep h = ps ++ [p] ∧ split sep (h ++ w) = ps ++ [p ++ w] := by
  induction h with
  | nil => exact ⟨[], [], rfl, by simpa using split_of_not_mem hw⟩
  | cons c cs ih =>
    obtain ⟨ps, p, h1, h2⟩ := ih
    by_cases hc : c = sep
    · subst hc
      refine ⟨[] :: ps, p, ?_, ?_⟩
      · rw [split_cons_sep, h1]; rfl
      · rw [List.cons_append, split_cons_sep, h2]; rfl
    · cases ps with
      | nil =>
        refine ⟨[], c :: p, ?_, ?_⟩
        · rw [split_cons_ne _ hc, h1]; rfl
        · rw [List.cons_append, split_cons_ne _ hc, h2]; rfl
      | cons q qs =>
        refine ⟨(c :: q) :: qs, p, ?_, ?_⟩
        · rw [split_cons_ne _ hc, h1]; rfl
        · rw [List.cons_append, split_cons_ne _ hc, h2]; rfl

theorem parseHeaders_append_ws (h : List Char) {w : List Char}
    (hw : ∀ c ∈ w, isWhiteSpace c = true) : parseHeaders (h ++ w) = parseHeaders h := by
  have hcomma : ',' ∉ w := by
    intro hm
    have := hw ',' hm
    rw [isWhiteSpace_comma] at this
    exact Bool.false_ne_true this
  obtain ⟨ps, p, h1, h2⟩ := split_append_last h hcomma
  unfold parseHeaders
  rw [h1, h2, List.map_append, List.map_append]
  simp only [List.map_cons, List.map_nil, trim_append_ws p hw]

theorem processRow_append_ws (now : JSString) {headers : List JSString} (hh : headers ≠ [])
    (st : ParseState) (r : List Char) {w : List Char} (hw : ∀ c ∈ w, isWhiteSpace c = true) :
    processRow now headers st (r ++ w) = processRow now headers st r := by
  by_cases hr : r = []
  · subst hr
    rw [List.nil_append, processRow_ws now hh st hw, processRow_ws now hh st (by simp)]
  · have hne : r ++ w ≠ [] := by
      intro e
      exact hr (List.append_eq_nil.1 e).1
    unfold processRow
    rw [parseCSVLine_str hne, parseCSVLine_str hr, scanLine_append_ws r hw]

theorem processRows_withCarriageReturns (now : JSString) {headers : List JSString}
    (hh : headers ≠ []) (st : ParseState) (rows : List (List Char)) :
    processRows now headers st (withCarriageReturns rows) = processRows now headers st rows := by
  induction rows generalizing st with
  | nil => rfl
  | cons l rest ih =>
    cases rest with
    | nil => rfl
    | cons m ms =>
      rw [withCarriageReturns, processRows_cons, processRows_cons,
        processRow_append_ws now hh st l (by simp [isWhiteSpace_return]), ih]

theorem parseCSV_of_ws (now : JSString) {text : List Char}
    (h : ∀ c ∈ text, isWhiteSpace c = true) : parseCSV now (.str text) = [] := by
  by_cases ht : text = []
  · subst ht; rfl
  · rw [parseCSV_str ht]
    have : trim text = [] := by
      unfold trim
      rw [dropWhile_all h]
      simp
    rw [this]
    rfl

/-- A text with a character that is no white space is white space, then a header line
with such a character, then the data lines. -/
theorem text_layout {text : List Char} (h : ¬ ∀ c ∈ text, isWhiteSpace c = true) :
    ∃ lead header rows, text = lead ++ joinWith '\n' (header :: rows) ∧
      (∀ c ∈ lead, isWhiteSpace c = true) ∧
      (∃ c ∈ header, isWhiteSpace c = false) ∧
      ∀ l ∈ header :: rows, '\n' ∉ l := by
  have hrest : text.dropWhile isWhiteSpace ≠ [] := by
    intro e
    exact h (List.dropWhile_eq_nil_iff.1 e)
  cases hd : text.dropWhile isWhiteSpace with
  | nil => exact absurd hd hrest
  | cons c cs =>
    have hc : isWhiteSpace c = false := by
      have := List.head_dropWhile_not isWhiteSpace text hrest
      simp only [hd, List.head_cons] at this
      exact this
    have hcn : c ≠ '\n' := by
      intro e
      rw [e, isWhiteSpace_newline] at hc
      exact Bool.noConfusion hc
    have hsplit : split '\n' (c :: cs)
        = (c :: (split '\n' cs).headD []) :: (split '\n' cs).tail := split_cons_ne cs hcn
    refine ⟨text.takeWhile isWhiteSpace, c :: (split '\n' cs).headD [], (split '\n' cs).tail,
      ?_, ?_, ?_, ?_⟩
    · rw [← hsplit, joinWith_split, ← hd, List.takeWhile_append_dropWhile]
    · intro d hdm
      exact List.mem_takeWhile_imp hdm
    · exact ⟨c, List.mem_cons_self _ _, hc⟩
    · intro l hl
      rw [← hsplit] at hl
      exact not_mem_of_mem_split hl

/-- Claim C21.  `parseCSV` does not depend on the line-ending convention: replacing
every line feed of a text by carriage return and line feed leaves the list of jobs
unchanged.  The text need not be free of carriage returns.  Blank lines, which then
hold a lone carriage return and tokenize to one empty field, are still skipped, also
under a single-column header. -/
theorem C21_line_endings (now : JSString) (text : List Char) :
    parseCSV now (.str (toCRLF text)) = parseCSV now (.str text) ∧
    toCRLF "Title\n\nA\n".data = "Title\r\n\r\nA\r\n".data ∧
    parseCSVLine (.str "\r".data) = [[]] ∧
    parseCSV now (.str "Title\r\n\r\nA\r\n".data) = parseCSV now (.str "Title\n\nA\n".data) := by
  refine ⟨?_, by decide, by decide, by rfl⟩
  by_cases hall : ∀ c ∈ text, isWhiteSpace c = true
  · rw [parseCSV_of_ws now hall, parseCSV_of_ws now (toCRLF_ws hall)]
  · obtain ⟨lead, header, rows, htext, hlead, hhead, hnl⟩ := text_layout hall
    rw [htext, toCRLF_append, toCRLF_joinWith _ hnl,
      parseCSV_lines now lead header rows hlead hhead hnl]
    cases rows with
    | nil =>
      rw [withCarriageReturns, parseCSV_lines now (toCRLF lead) header [] (toCRLF_ws hlead)
        hhead hnl]
    | cons r rs =>
      rw [withCarriageReturns]
      have hhead2 : ∃ c ∈ header ++ ['\r'], isWhiteSpace c = false := by
        obtain ⟨c, hc, hw⟩ := hhead
        exact ⟨c, List.mem_append_left _ hc, hw⟩
      have hnl2 : ∀ l ∈ (header ++ ['\r']) :: withCarriageReturns (r :: rs), '\n' ∉ l := by
        intro l hl
        rcases List.mem_cons.1 hl with e | e
        · rw [e]
          intro hm
          rcases List.mem_append.1 hm with h1 | h1
          · exact hnl header (by simp) h1
          · simp at h1
        · exact withCarriageReturns_newline_free (r :: rs)
            (fun x hx => hnl x (List.mem_cons_of_mem _ hx)) l e
      rw [parseCSV_lines now (toCRLF lead) (header ++ ['\r']) _ (toCRLF_ws hlead) hhead2 hnl2,
        parseHeaders_append_ws header (by simp [isWhiteSpace_return]),
        processRows_withCarriageReturns now (parseHeaders_ne_nil header)]

end JobFeed
